import Mathlib

/-!
# Snake In C: the movement and game-state engine

A shallow embedding of `src/main.c` and the properties of its specification.

* Grid cells are `Vector2` values.  The C type holds two floats; the program only ever
  stores small whole numbers in them, so the components are modelled as integers, on which
  raymath's `Vector2Equals` is plain component-wise equality.
* The snake is a singly linked list of heap nodes.  The heap is modelled explicitly: an
  address is a natural number, `NULL` is `none`, and every pointer read or write of the C code
  is a `load` or a field store.  A result `none` of a modelled function means that the C
  execution has no defined result there: it dereferences a pointer that is `NULL` or not
  allocated, or it walks a cyclic chain for ever.
* The globals of the program are the fields of `Game`.
* What the outside world supplies to a call (elapsed time, keys, random numbers, whether
  `MemAlloc` succeeds) is passed as explicit arguments.
-/

namespace Snake

/-! ## Data model -/

/-- The raylib vector type, restricted to whole-number components. -/
structure Vector2 where
  x : Int
  y : Int
deriving DecidableEq

/-- A pointer to a snake node: `none` is `NULL`, `some a` is the address `a`. -/
abbrev Ptr := Option Nat

/-- The C structure `struct SnakeNode` of `main.c`, lines 6 to 10. -/
structure SnakeNode where
  next : Ptr
  pos : Vector2
deriving DecidableEq

/-- The enumeration `GameStatus` of `main.c`, lines 13 to 19. -/
inductive GameStatus where
  | RESET
  | PLAYING
  | WON
  | LOST
deriving DecidableEq

/-- The attempt cap of `PlaceFruit` (line 21). -/
def maxFruitPlaceAtttempts : Nat := 400

/-- The number of columns of the board (line 27). -/
def boardWidth : Int := 20

/-- The number of rows of the board (line 28). -/
def boardHeight : Int := 20

/-- Seconds per move (line 36); the float constant 0.2 taken as the exact fraction. -/
def snakeMoveTimerStart : ℚ := 1 / 5

/-- The heap of snake nodes: slot `a` holds the node allocated at address `a`, or `none` when
nothing is allocated there. Addresses beyond the length have never been handed out. -/
abbrev Heap := List (Option SnakeNode)

/-- The globals of `main.c` (lines 39 to 45) together with the heap they point into. -/
structure Game where
  heap : Heap
  gameStatus : GameStatus
  snakeMoveTimer : ℚ
  snakeDirection : Vector2
  inputBuffer : Vector2
  snakeHead : Ptr
  fruitPos : Vector2
  score : Int
deriving DecidableEq

/-- The four direction keys as `IsKeyPressed` reports them during one frame. -/
structure Keys where
  up : Bool
  down : Bool
  left : Bool
  right : Bool
deriving DecidableEq

/-! ## raylib and raymath primitives -/

/-- The raymath zero vector. -/
def Vector2Zero : Vector2 := ⟨0, 0⟩

/-- The raymath component-wise sum. -/
def Vector2Add (v1 v2 : Vector2) : Vector2 := ⟨v1.x + v2.x, v1.y + v2.y⟩

/-- The raymath equality test; exact on whole-number components. -/
def Vector2Equals (p q : Vector2) : Bool := p.x == q.x && p.y == q.y

/-- The raylib random number of the closed range from `lo` to `hi`; `raw` is the outcome of
the underlying generator, so every value of the range can occur and no other. -/
def GetRandomValue (raw : Nat) (lo hi : Int) : Int := lo + (raw : Int) % (hi - lo + 1)

/-! ## Heap access -/

/-- Dereferencing address `a`: the node stored there, if one is allocated. -/
def load (h : Heap) (a : Nat) : Option SnakeNode := h[a]?.join

/-- The assignment `a->next = nxt`. -/
def setNext (h : Heap) (a : Nat) (nxt : Ptr) : Option Heap :=
  (load h a).map fun n => h.set a (some { n with next := nxt })

/-- The assignment `a->pos = pos`. -/
def setPos (h : Heap) (a : Nat) (pos : Vector2) : Option Heap :=
  (load h a).map fun n => h.set a (some { n with pos := pos })

/-- The raylib allocator (a `calloc`): on success a fresh zeroed node at an address never
used before, on failure `NULL`. -/
def MemAlloc (h : Heap) (allocOk : Bool) : Heap × Ptr :=
  if allocOk then (h ++ [some ⟨none, Vector2Zero⟩], some h.length) else (h, none)

/-- The raylib deallocator applied to an allocated address. -/
def MemFree (h : Heap) (a : Nat) : Option Heap :=
  (load h a).map fun _ => h.set a none

/-! ## The functions of `main.c` -/

/-- The function `NewSnakeNode` (lines 208 to 216). -/
def NewSnakeNode (h : Heap) (allocOk : Bool) (next : Ptr) (pos : Vector2) :
    Option (Heap × Ptr) :=
  match MemAlloc h allocOk with
  | (h1, none) => some (h1, none)
  | (h1, some a) => do
    let h2 ← setNext h1 a next
    let h3 ← setPos h2 a pos
    some (h3, some a)

/-- The recursion of `CheckSnakeNodesForPos` (lines 177 to 184), with a bound on its depth. -/
def CheckSnakeNodesForPosAux (h : Heap) (pos : Vector2) : Nat → Ptr → Option Bool
  | _, none => some false
  | 0, some _ => none
  | fuel + 1, some a => do
    let n ← load h a
    if Vector2Equals pos n.pos then some true
    else CheckSnakeNodesForPosAux h pos fuel n.next

/-- The function `CheckSnakeNodesForPos`. A chain without a cycle has at most as many nodes
as the heap has slots, so that many steps are allowed. -/
def CheckSnakeNodesForPos (h : Heap) (pos : Vector2) (snakeNode : Ptr) : Option Bool :=
  CheckSnakeNodesForPosAux h pos h.length snakeNode

/-- The recursion of `GetSecondLastNode` (lines 245 to 256), with a bound on its depth. -/
def GetSecondLastNodeAux (h : Heap) : Nat → Ptr → Option Ptr
  | _, none => none
  | 0, some _ => none
  | fuel + 1, some a => do
    let n ← load h a
    match n.next with
    | none => some none
    | some b => do
      let m ← load h b
      match m.next with
      | none => some (some a)
      | some _ => GetSecondLastNodeAux h fuel (some b)

/-- The function `GetSecondLastNode`, with the same bound on the length of the walk as
`CheckSnakeNodesForPos`. -/
def GetSecondLastNode (h : Heap) (snakeNode : Ptr) : Option Ptr :=
  GetSecondLastNodeAux h h.length snakeNode

/-- The recursion of `DeleteSnakeNode` (lines 200 to 206), with a bound on its depth. -/
def DeleteSnakeNodeAux : Nat → Heap → Ptr → Option Heap
  | _, h, none => some h
  | 0, _, some _ => none
  | fuel + 1, h, some a => do
    let n ← load h a
    let h1 ← DeleteSnakeNodeAux fuel h n.next
    MemFree h1 a

/-- The function `DeleteSnakeNode`, with the same bound on the length of the walk as
`CheckSnakeNodesForPos`. -/
def DeleteSnakeNode (h : Heap) (snakeNode : Ptr) : Option Heap :=
  DeleteSnakeNodeAux h.length h snakeNode

/-- The function `MoveSnakeAndGetHead` (lines 218 to 243): the new heap and the returned
pointer. The global `snakeHead` it reads is the second argument. -/
def MoveSnakeAndGetHead (h : Heap) (snakeHead : Ptr) (allocOk : Bool) (newPos : Vector2)
    (ateFruit : Bool) : Option (Heap × Ptr) :=
  match snakeHead with
  | none => some (h, none)
  | some head =>
    if ateFruit then NewSnakeNode h allocOk snakeHead newPos
    else do
      let secondLastNode ← GetSecondLastNode h snakeHead
      match secondLastNode with
      | some sl => do
        let lastNode := (← load h sl).next
        let h1 ← setNext h sl none
        match lastNode with
        | none => none
        | some last => do
          let h2 ← setNext h1 last snakeHead
          let h3 ← setPos h2 last newPos
          some (h3, lastNode)
      | none => do
        let h1 ← setPos h head newPos
        some (h1, snakeHead)

/-- The function `GetRandomTilePos` (lines 121 to 124); `raw` holds the two outcomes of the
generator used for the column and the row. -/
def GetRandomTilePos (raw : Nat × Nat) : Vector2 :=
  ⟨GetRandomValue raw.1 0 (boardWidth - 1), GetRandomValue raw.2 0 (boardHeight - 1)⟩

/-- The do-while loop of `PlaceFruit` (lines 163 to 165), entered with counter `i` when `k`
cells have been drawn; `rand k` is the outcome of the generator for the draw number `k`.
The result is the final fruit cell, the final counter and the number of cells drawn. -/
def PlaceFruitLoop (h : Heap) (snakeHead : Ptr) (rand : Nat → Nat × Nat) :
    Nat → Nat → Nat → Option (Vector2 × Nat × Nat)
  | 0, _, _ => none
  | fuel + 1, i, k => do
    let fruitPos := GetRandomTilePos (rand k)
    if ← CheckSnakeNodesForPos h fruitPos snakeHead then
      if i + 1 < maxFruitPlaceAtttempts then PlaceFruitLoop h snakeHead rand fuel (i + 1) (k + 1)
      else some (fruitPos, i + 1, k + 1)
    else some (fruitPos, i, k + 1)

/-- The function `PlaceFruit` (lines 160 to 167): the returned flag, the state with the new
fruit cell, and the number of cells drawn from the generator. The counter grows in every
round that continues, so the loop body runs at most `maxFruitPlaceAtttempts` times. -/
def PlaceFruit (rand : Nat → Nat × Nat) (g : Game) : Option (Bool × Game × Nat) := do
  let (fruitPos, i, k) ← PlaceFruitLoop g.heap g.snakeHead rand maxFruitPlaceAtttempts 0 0
  some (decide (i < maxFruitPlaceAtttempts), { g with fruitPos := fruitPos }, k)

/-- The function `IsSnakeHeadPosOkay` (lines 169 to 175). -/
def IsSnakeHeadPosOkay (g : Game) : Option Bool := do
  let head ← g.snakeHead
  let n ← load g.heap head
  let pos := n.pos
  if pos.x < 0 ∨ pos.y < 0 ∨ pos.x > boardWidth - 1 ∨ pos.y > boardHeight - 1 then
    some false
  else do
    let found ← CheckSnakeNodesForPos g.heap pos n.next
    some (!found)

/-- The function `GetInputDirection` (lines 186 to 198). -/
def GetInputDirection (keys : Keys) : Vector2 :=
  let input := Vector2Zero
  let input := if keys.up then { input with y := input.y - 1 } else input
  let input := if keys.down then { input with y := input.y + 1 } else input
  let input := if keys.left then { input with x := input.x - 1 } else input
  let input := if keys.right then { input with x := input.x + 1 } else input
  input

/-- Lines 129 to 134 of `UpdateGame`: read the keys, drop the components along the axis of
movement, and buffer what is left unless it is zero. -/
def bufferInput (keys : Keys) (g : Game) : Game :=
  let input := GetInputDirection keys
  let input := { input with x := if input.x ≠ 0 ∧ g.snakeDirection.x ≠ 0 then 0 else input.x }
  let input := { input with y := if input.y ≠ 0 ∧ g.snakeDirection.y ≠ 0 then 0 else input.y }
  if !Vector2Equals input Vector2Zero then { g with inputBuffer := input } else g

/-- Lines 141 to 145 of `UpdateGame`: a buffered direction becomes the direction of movement. -/
def takeDirection (g : Game) : Game :=
  if !Vector2Equals g.inputBuffer Vector2Zero then
    { g with snakeDirection := g.inputBuffer, inputBuffer := Vector2Zero }
  else g

/-- Lines 147 to 155 of `UpdateGame`: move, eat the fruit, and add the move interval back to
the timer. -/
def moveAndEat (rand : Nat → Nat × Nat) (allocOk : Bool) (g : Game) : Option Game := do
  let head ← g.snakeHead
  let newPos := Vector2Add (← load g.heap head).pos g.snakeDirection
  let ateFruit := Vector2Equals newPos g.fruitPos
  let g ←
    if ateFruit then do
      let g := { g with score := g.score + 1 }
      let (placed, g, _) ← PlaceFruit rand g
      some { g with gameStatus := if placed then g.gameStatus else GameStatus.WON }
    else some g
  let (heap, newHead) ← MoveSnakeAndGetHead g.heap g.snakeHead allocOk newPos ateFruit
  let g := { g with heap := heap, snakeHead := newHead }
  some { g with snakeMoveTimer := g.snakeMoveTimer + snakeMoveTimerStart }

/-- The function `UpdateGame` (lines 126 to 158). -/
def UpdateGame (delta : ℚ) (keys : Keys) (rand : Nat → Nat × Nat) (allocOk : Bool)
    (g : Game) : Option Game := do
  let g := bufferInput keys g
  let g := { g with snakeMoveTimer := g.snakeMoveTimer - delta }
  let g ← if g.snakeMoveTimer ≤ 0 then moveAndEat rand allocOk (takeDirection g) else some g
  let okay ← IsSnakeHeadPosOkay g
  some { g with gameStatus := if okay then g.gameStatus else GameStatus.LOST }

/-- The function `ResetGame` (lines 109 to 119). The first draw of the generator places the
snake, the following ones the fruit; the flag returned by `PlaceFruit` is not looked at. -/
def ResetGame (rand : Nat → Nat × Nat) (allocOk : Bool) (g : Game) : Option Game := do
  let h ← DeleteSnakeNode g.heap g.snakeHead
  let (h, head) ← NewSnakeNode h allocOk none (GetRandomTilePos (rand 0))
  let g := { g with heap := h, snakeHead := head }
  let (_, g, _) ← PlaceFruit (fun k => rand (k + 1)) g
  some { g with
    inputBuffer := Vector2Zero
    snakeDirection := Vector2Zero
    gameStatus := GameStatus.RESET
    score := 0
    snakeMoveTimer := 0 }

/-- The cells of the chain of nodes that starts at `p`, in order, read with at most `fuel`
steps; `none` when the chain leaves the allocated nodes or does not end within the bound. -/
def chainCells (h : Heap) : Nat → Ptr → Option (List Vector2)
  | _, none => some []
  | 0, some _ => none
  | fuel + 1, some a => do
    let n ← load h a
    let rest ← chainCells h fuel n.next
    some (n.pos :: rest)

/-- The snake body, head first, as the sequence of cells of the chain at `snakeHead`. -/
def Game.snake (g : Game) : Option (List Vector2) :=
  chainCells g.heap g.heap.length g.snakeHead

/-! ## Notions used to state the properties -/

/-- The heap holds, from `p` on, exactly the nodes with the addresses and cells listed,
each pointing to the next and the last one to `NULL`. -/
def Chain (h : Heap) : Ptr → List (Nat × Vector2) → Prop
  | p, [] => p = none
  | p, (a, c) :: l => p = some a ∧ ∃ nxt, load h a = some ⟨nxt, c⟩ ∧ Chain h nxt l

/-- The cell lies on the board. -/
def inBoard (c : Vector2) : Prop :=
  0 ≤ c.x ∧ 0 ≤ c.y ∧ c.x ≤ boardWidth - 1 ∧ c.y ≤ boardHeight - 1

instance (c : Vector2) : Decidable (inBoard c) := by
  unfold inBoard
  infer_instance

/-- The state of `UpdateGame` after line 137: the input is buffered and the timer is
decremented. -/
def timed (delta : ℚ) (keys : Keys) (g : Game) : Game :=
  { bufferInput keys g with snakeMoveTimer := (bufferInput keys g).snakeMoveTimer - delta }

/-- The move timer elapses on a call with the elapsed time `delta`. -/
def elapsed (delta : ℚ) (g : Game) : Prop := g.snakeMoveTimer - delta ≤ 0

instance (delta : ℚ) (g : Game) : Decidable (elapsed delta g) := by
  unfold elapsed
  infer_instance

/-- The direction of movement used by a move of this call: the buffered direction, if there
is one after the input of this call has been processed, else the previous direction. -/
def activeDirection (keys : Keys) (g : Game) : Vector2 :=
  (takeDirection (bufferInput keys g)).snakeDirection

/-- The prospective head cell of this call: the head cell `c` plus the active direction. -/
def prospectiveHead (keys : Keys) (g : Game) (c : Vector2) : Vector2 :=
  Vector2Add c (activeDirection keys g)

/-- The state in which a move of this call starts (after line 145). -/
def turned (delta : ℚ) (keys : Keys) (g : Game) : Game := takeDirection (timed delta keys g)

/-- A heap that holds the cells as a chain, together with the pointer to its first node. It is
built the way growth builds it: each node sits at the next address and points to the node
that was the head before. -/
def chainOf : List Vector2 → Heap × Ptr
  | [] => ([], none)
  | c :: cs => ((chainOf cs).1 ++ [some ⟨(chainOf cs).2, c⟩], some (chainOf cs).1.length)

/-- A `PLAYING` state with the given snake body, direction of movement and fruit cell, the
timer at zero, no buffered input and no score. -/
def gameOf (cells : List Vector2) (dir fruit : Vector2) : Game :=
  { heap := (chainOf cells).1
    gameStatus := GameStatus.PLAYING
    snakeMoveTimer := 0
    snakeDirection := dir
    inputBuffer := Vector2Zero
    snakeHead := (chainOf cells).2
    fruitPos := fruit
    score := 0 }

/-- A generator whose every draw gives the cell `(0,0)`. -/
def stuckDraws : Nat → Nat × Nat := fun _ => (0, 0)

/-- A generator whose draw number `j` gives the cell in column `j` modulo 20 of row 0. -/
def countingDraws : Nat → Nat × Nat := fun j => (j, 0)

/-- A snake of four cells coiled in a square, the head at `(0,0)` and the tail at `(1,0)`,
moving right, so that the head is about to enter the cell of its own tail. -/
def squareSnake : Game := gameOf [⟨0, 0⟩, ⟨0, 1⟩, ⟨1, 1⟩, ⟨1, 0⟩] ⟨1, 0⟩ ⟨7, 5⟩

/-- A snake of five cells about to run into its fourth cell `(1,0)`; the fruit is away from it. -/
def coiledSnake : Game := gameOf [⟨0, 0⟩, ⟨0, 1⟩, ⟨1, 1⟩, ⟨1, 0⟩, ⟨2, 0⟩] ⟨1, 0⟩ ⟨7, 5⟩

/-- The same snake of five cells with the fruit lying on its fourth cell `(1,0)`. -/
def coiledSnakeOnFruit : Game :=
  gameOf [⟨0, 0⟩, ⟨0, 1⟩, ⟨1, 1⟩, ⟨1, 0⟩, ⟨2, 0⟩] ⟨1, 0⟩ ⟨1, 0⟩

/-- A snake of one cell in the last column, moving right. -/
def edgeSnake : Game := gameOf [⟨19, 5⟩] ⟨1, 0⟩ ⟨6, 5⟩

/-- The cells of row `y` of the board: from left to right in the even rows, from right to left
in the odd rows. -/
def boardRow (y : Nat) : List Vector2 :=
  if y % 2 = 0 then (List.range 20).map fun (x : Nat) => ⟨Int.ofNat x, Int.ofNat y⟩
  else ((List.range 20).map fun (x : Nat) => ⟨Int.ofNat x, Int.ofNat y⟩).reverse

/-- A body of 399 cells that winds through the whole board row by row and leaves out only the
cell `(0,0)`; its head is at `(1,0)`. -/
def fullBoardBody : List Vector2 := ((List.range 20).flatMap boardRow).tail

/-- The state in which that body moves left, towards the fruit on the last free cell
`(0,0)`. -/
def fullBoardSnake : Game := gameOf fullBoardBody ⟨-1, 0⟩ ⟨0, 0⟩

/-- No direction key is pressed. -/
def noKeys : Keys := ⟨false, false, false, false⟩

/-- What the outside world supplies during one iteration of the main loop: the frame time, the
direction keys, whether any key was pressed, the outcomes of the random generator, and
whether an allocation succeeds. -/
structure Frame where
  delta : ℚ
  keys : Keys
  anyKey : Bool
  rand : Nat → Nat × Nat
  allocOk : Bool

/-- A sequence of `UpdateGame` calls, one for each frame of the list. -/
def runUpdates : List Frame → Game → Option Game
  | [], g => some g
  | f :: fs, g => (UpdateGame f.delta f.keys f.rand f.allocOk g).bind (runUpdates fs)

/-- The call eats the fruit: the timer elapses and the prospective head cell is the fruit
cell. -/
def eatsFruit (delta : ℚ) (keys : Keys) (g : Game) : Bool :=
  match g.snake with
  | some (c :: _) =>
    decide (elapsed delta g) && Vector2Equals (prospectiveHead keys g c) g.fruitPos
  | _ => false

/-- The number of calls of the sequence that eat the fruit. -/
def countEats : List Frame → Game → Nat
  | [], _ => 0
  | f :: fs, g =>
    (if eatsFruit f.delta f.keys g then 1 else 0)
      + match UpdateGame f.delta f.keys f.rand f.allocOk g with
        | some g2 => countEats fs g2
        | none => 0

/-- The globals when `main` starts: static storage is zeroed, the heap holds no node. -/
def initialGame : Game :=
  { heap := []
    gameStatus := GameStatus.RESET
    snakeMoveTimer := 0
    snakeDirection := Vector2Zero
    inputBuffer := Vector2Zero
    snakeHead := none
    fruitPos := Vector2Zero
    score := 0 }

/-- One iteration of the main loop (lines 80 to 98); the drawing of the frame reads the state
and changes nothing. -/
def mainStep (f : Frame) (g : Game) : Option Game :=
  match g.gameStatus with
  | GameStatus.PLAYING => UpdateGame f.delta f.keys f.rand f.allocOk g
  | GameStatus.WON => if f.anyKey then ResetGame f.rand f.allocOk g else some g
  | GameStatus.LOST => if f.anyKey then ResetGame f.rand f.allocOk g else some g
  | GameStatus.RESET =>
    let input := GetInputDirection f.keys
    if !Vector2Equals input Vector2Zero then
      let input := { input with x := if input.x ≠ 0 ∧ input.y ≠ 0 then 0 else input.x }
      some { g with inputBuffer := input, gameStatus := GameStatus.PLAYING }
    else some g

/-- The states the program can be in at the top of its main loop: the state after the call of
`ResetGame` at the start of `main`, and every state one iteration later. -/
inductive Reachable : Game → Prop where
  | start (rand : Nat → Nat × Nat) (allocOk : Bool) (g : Game) :
      ResetGame rand allocOk initialGame = some g → Reachable g
  | step (f : Frame) (g g2 : Game) : Reachable g → mainStep f g = some g2 → Reachable g2

/-- The raymath negation of a vector. -/
def Vector2Negate (v : Vector2) : Vector2 := ⟨-v.x, -v.y⟩

/-- A sequence of iterations of the main loop, one for each frame of the list. -/
def runMain : List Frame → Game → Option Game
  | [], g => some g
  | f :: fs, g => (mainStep f g).bind (runMain fs)

/-- Only the left key is pressed. -/
def leftKey : Keys := ⟨false, false, true, false⟩

/-- Only the right key is pressed. -/
def rightKey : Keys := ⟨false, false, false, true⟩

/-- The right key and the down key are pressed in the same frame. -/
def rightDownKeys : Keys := ⟨false, true, false, true⟩

/-- A one-cell snake at `(5,5)` moving right whose timer still has a fifth of a second to
run. -/
def waitingSnake : Game := { gameOf [⟨5, 5⟩] ⟨1, 0⟩ ⟨7, 5⟩ with snakeMoveTimer := 1 / 5 }

/-- A one-cell snake at `(5,5)` moving down whose timer still has a fifth of a second to
run. -/
def downwardSnake : Game := { gameOf [⟨5, 5⟩] ⟨0, 1⟩ ⟨7, 5⟩ with snakeMoveTimer := 1 / 5 }

/-- A generator whose first draw gives the cell `(5,5)` and every later draw the cell
`(7,5)`. -/
def openingDraws : Nat → Nat × Nat := fun k => if k = 0 then (5, 5) else (7, 5)

/-- A generator whose every draw gives the cell `(6,5)`. -/
def sameCellDraws : Nat → Nat × Nat := fun _ => (6, 5)

/-- The state after `ResetGame` at the start of `main` when the generator is `openingDraws`:
the snake at `(5,5)`, the fruit at `(7,5)`. -/
def freshGame : Game :=
  { heap := [some ⟨none, ⟨5, 5⟩⟩]
    gameStatus := GameStatus.RESET
    snakeMoveTimer := 0
    snakeDirection := Vector2Zero
    inputBuffer := Vector2Zero
    snakeHead := some 0
    fruitPos := ⟨7, 5⟩
    score := 0 }

/-- The state one frame after `freshGame` when the right key was pressed in that frame. -/
def startedGame : Game :=
  { freshGame with gameStatus := GameStatus.PLAYING, inputBuffer := ⟨1, 0⟩ }

/-- The state a call of `UpdateGame` leaves after `startedGame` when the left key is pressed:
the snake has moved left, to `(4,5)`. -/
def reversedGame : Game :=
  { heap := [some ⟨none, ⟨4, 5⟩⟩]
    gameStatus := GameStatus.PLAYING
    snakeMoveTimer := 1 / 5
    snakeDirection := ⟨-1, 0⟩
    inputBuffer := Vector2Zero
    snakeHead := some 0
    fruitPos := ⟨7, 5⟩
    score := 0 }

/-- The state a call of `UpdateGame` leaves after `startedGame` when the right key and the down
key are pressed: the snake has moved diagonally, to `(6,6)`. -/
def diagonalGame : Game :=
  { heap := [some ⟨none, ⟨6, 6⟩⟩]
    gameStatus := GameStatus.PLAYING
    snakeMoveTimer := 1 / 5
    snakeDirection := ⟨1, 1⟩
    inputBuffer := Vector2Zero
    snakeHead := some 0
    fruitPos := ⟨7, 5⟩
    score := 0 }

/-- The state a call of `UpdateGame` leaves after the snake `[(5,5)]` has eaten the fruit at
`(6,5)` and the generator has drawn `(6,5)` again: the new fruit lies under the new head. -/
def fruitUnderHead : Game :=
  { heap := [some ⟨none, ⟨5, 5⟩⟩, some ⟨some 0, ⟨6, 5⟩⟩]
    gameStatus := GameStatus.PLAYING
    snakeMoveTimer := 1 / 5
    snakeDirection := ⟨1, 0⟩
    inputBuffer := Vector2Zero
    snakeHead := some 1
    fruitPos := ⟨6, 5⟩
    score := 1 }

/-- The state a call of `UpdateGame` leaves after `startedGame` when no key is pressed: the
snake has moved right, to `(6,5)`. -/
def movedGame : Game :=
  { heap := [some ⟨none, ⟨6, 5⟩⟩]
    gameStatus := GameStatus.PLAYING
    snakeMoveTimer := 1 / 5
    snakeDirection := ⟨1, 0⟩
    inputBuffer := Vector2Zero
    snakeHead := some 0
    fruitPos := ⟨7, 5⟩
    score := 0 }

/-! ## The chain of nodes behind a pointer -/

theorem load_eq_some_iff {h : Heap} {a : Nat} {n : SnakeNode} :
    load h a = some n ↔ h[a]? = some (some n) := by
  unfold load
  cases h[a]? <;> simp

theorem load_lt {h : Heap} {a : Nat} {n : SnakeNode} (hl : load h a = some n) :
    a < h.length := by
  rw [load_eq_some_iff, List.getElem?_eq_some_iff] at hl
  exact hl.1

theorem load_set_self {h : Heap} {a : Nat} (x : Option SnakeNode) (ha : a < h.length) :
    load (h.set a x) a = x := by
  simp [load, List.getElem?_set_self ha]

theorem load_set_ne {h : Heap} {a b : Nat} (x : Option SnakeNode) (hab : a ≠ b) :
    load (h.set a x) b = load h b := by
  simp [load, List.getElem?_set_ne hab]

theorem load_append {h : Heap} {a : Nat} {n : SnakeNode} (t : Heap)
    (hl : load h a = some n) : load (h ++ t) a = some n := by
  have ha := load_lt hl
  rw [load_eq_some_iff] at hl ⊢
  rw [List.getElem?_append_left ha]
  exact hl

theorem load_append_length (h : Heap) (x : Option SnakeNode) :
    load (h ++ [x]) h.length = x := by
  simp [load]

theorem Chain.unique {h : Heap} : ∀ {l1 l2 : List (Nat × Vector2)} {p : Ptr},
    Chain h p l1 → Chain h p l2 → l1 = l2
  | [], [], _, _, _ => rfl
  | [], (_, _) :: _, _, h1, h2 => by
    simp only [Chain] at h1 h2
    rw [h1] at h2
    exact absurd h2.1 (by simp)
  | (_, _) :: _, [], _, h1, h2 => by
    simp only [Chain] at h1 h2
    rw [h2] at h1
    exact absurd h1.1 (by simp)
  | (a, c) :: l1, (b, d) :: l2, _, h1, h2 => by
    simp only [Chain] at h1 h2
    obtain ⟨hp1, n1, hl1, hc1⟩ := h1
    obtain ⟨hp2, n2, hl2, hc2⟩ := h2
    rw [hp1] at hp2
    have hab : a = b := Option.some.inj hp2
    subst hab
    rw [hl1] at hl2
    have hn := Option.some.inj hl2
    simp only [SnakeNode.mk.injEq] at hn
    obtain ⟨hn1, hn2⟩ := hn
    subst hn1 hn2
    rw [Chain.unique hc1 hc2]

theorem Chain.suffix {h : Heap} : ∀ {l1 : List (Nat × Vector2)} {p : Ptr}
    {x : Nat × Vector2} {l2 : List (Nat × Vector2)},
    Chain h p (l1 ++ x :: l2) → Chain h (some x.1) (x :: l2)
  | [], p, (a, c), l2, hc => by
    simp only [List.nil_append, Chain] at hc ⊢
    exact ⟨trivial, hc.2⟩
  | (b, d) :: l1, p, x, l2, hc => by
    simp only [List.cons_append, Chain] at hc
    obtain ⟨_, nxt, _, hc⟩ := hc
    exact Chain.suffix hc

theorem Chain.lt {h : Heap} : ∀ {l : List (Nat × Vector2)} {p : Ptr},
    Chain h p l → ∀ x ∈ l, x.1 < h.length
  | [], _, _ => by simp
  | (a, c) :: l, _, hc => by
    simp only [Chain] at hc
    obtain ⟨_, nxt, hl, hc⟩ := hc
    intro x hx
    rcases List.mem_cons.mp hx with rfl | hx
    · exact load_lt hl
    · exact Chain.lt hc x hx

theorem Chain.nodup {h : Heap} : ∀ {l : List (Nat × Vector2)} {p : Ptr},
    Chain h p l → (l.map Prod.fst).Nodup
  | [], _, _ => by simp
  | (a, c) :: l, p, hc => by
    have hc0 := hc
    simp only [Chain] at hc
    obtain ⟨hp, nxt, hl, hc⟩ := hc
    rw [List.map_cons, List.nodup_cons]
    refine ⟨?_, Chain.nodup hc⟩
    intro hmem
    obtain ⟨⟨a2, d⟩, hx, hxa⟩ := List.mem_map.mp hmem
    simp only at hxa
    subst hxa
    obtain ⟨s, t, hst⟩ := List.append_of_mem hx
    rw [hst] at hc
    have h2 := Chain.suffix hc
    rw [← hp] at h2
    have heq := Chain.unique hc0 h2
    have hlen := congrArg List.length heq
    rw [hst] at hlen
    simp at hlen
    omega

theorem Chain.length_le {h : Heap} {l : List (Nat × Vector2)} {p : Ptr}
    (hc : Chain h p l) : l.length ≤ h.length := by
  have hnd := Chain.nodup hc
  have hsub : (l.map Prod.fst).toFinset ⊆ Finset.range h.length := by
    intro a ha
    rw [List.mem_toFinset, List.mem_map] at ha
    obtain ⟨x, hx, rfl⟩ := ha
    exact Finset.mem_range.mpr (Chain.lt hc x hx)
  have hcard := Finset.card_le_card hsub
  rw [List.toFinset_card_of_nodup hnd, Finset.card_range, List.length_map] at hcard
  exact hcard

theorem Chain.frame_set {h : Heap} (b : Nat) (x : Option SnakeNode) :
    ∀ {l : List (Nat × Vector2)} {p : Ptr},
    Chain h p l → b ∉ l.map Prod.fst → Chain (h.set b x) p l
  | [], _, hc, _ => by simpa [Chain] using hc
  | (a, c) :: l, _, hc, hb => by
    simp only [Chain] at hc ⊢
    obtain ⟨hp, nxt, hl, hc⟩ := hc
    simp only [List.map_cons, List.mem_cons, not_or] at hb
    refine ⟨hp, nxt, ?_, Chain.frame_set b x hc hb.2⟩
    rw [load_set_ne x hb.1]
    exact hl

theorem Chain.frame_append {h : Heap} (t : Heap) :
    ∀ {l : List (Nat × Vector2)} {p : Ptr}, Chain h p l → Chain (h ++ t) p l
  | [], _, hc => by simpa [Chain] using hc
  | (a, c) :: l, _, hc => by
    simp only [Chain] at hc ⊢
    obtain ⟨hp, nxt, hl, hc⟩ := hc
    exact ⟨hp, nxt, load_append t hl, Chain.frame_append t hc⟩

theorem chainCells_of_chain {h : Heap} : ∀ {l : List (Nat × Vector2)} {p : Ptr} {fuel : Nat},
    Chain h p l → l.length ≤ fuel → chainCells h fuel p = some (l.map Prod.snd)
  | [], _, fuel, hc, _ => by
    simp only [Chain] at hc
    subst hc
    cases fuel <;> simp [chainCells]
  | (a, c) :: l, _, 0, _, hf => by simp at hf
  | (a, c) :: l, _, fuel + 1, hc, hf => by
    simp only [Chain] at hc
    obtain ⟨hp, nxt, hl, hc⟩ := hc
    subst hp
    have hf2 : l.length ≤ fuel := by simpa using hf
    simp [chainCells, hl, chainCells_of_chain hc hf2]

theorem chain_of_chainCells {h : Heap} : ∀ {fuel : Nat} {p : Ptr} {cells : List Vector2},
    chainCells h fuel p = some cells → ∃ l, Chain h p l ∧ l.map Prod.snd = cells
  | fuel, none, cells, hc => by
    have : cells = [] := by cases fuel <;> simpa [chainCells, eq_comm] using hc
    subst this
    exact ⟨[], rfl, rfl⟩
  | 0, some a, cells, hc => by simp [chainCells] at hc
  | fuel + 1, some a, cells, hc => by
    simp only [chainCells, Option.bind_eq_bind, Option.bind_eq_some] at hc
    obtain ⟨n, hl, rest, hrest, hcells⟩ := hc
    obtain ⟨l, hl2, hmap⟩ := chain_of_chainCells hrest
    refine ⟨(a, n.pos) :: l, ⟨rfl, n.next, hl, hl2⟩, ?_⟩
    simp only [Option.some.injEq] at hcells
    simp [hmap, hcells]

/-- The snake body is `cells` exactly when the heap holds a chain with these cells. -/
theorem snake_eq_some_iff {g : Game} {cells : List Vector2} :
    g.snake = some cells ↔ ∃ l, Chain g.heap g.snakeHead l ∧ l.map Prod.snd = cells := by
  constructor
  · exact chain_of_chainCells
  · rintro ⟨l, hc, rfl⟩
    exact chainCells_of_chain hc (Chain.length_le hc)

/-! ## What the list functions compute on a chain -/

theorem Vector2Equals_iff (p q : Vector2) : Vector2Equals p q = true ↔ p = q := by
  cases p
  cases q
  simp [Vector2Equals]

theorem Chain.head_eq {h : Heap} {p : Ptr} {x : Nat × Vector2} {l : List (Nat × Vector2)}
    (hc : Chain h p (x :: l)) : p = some x.1 := by
  obtain ⟨a, c⟩ := x
  exact hc.1

theorem checkAux_chain {h : Heap} (pos : Vector2) :
    ∀ {l : List (Nat × Vector2)} {p : Ptr} {fuel : Nat}, Chain h p l → l.length ≤ fuel →
      CheckSnakeNodesForPosAux h pos fuel p = some (decide (pos ∈ l.map Prod.snd))
  | [], _, fuel, hc, _ => by
    simp only [Chain] at hc
    subst hc
    cases fuel <;> simp [CheckSnakeNodesForPosAux]
  | (a, c) :: l, _, 0, _, hf => by simp at hf
  | (a, c) :: l, _, fuel + 1, hc, hf => by
    simp only [Chain] at hc
    obtain ⟨hp, nxt, hl, hc⟩ := hc
    subst hp
    have hf2 : l.length ≤ fuel := by simpa using hf
    have ih := checkAux_chain pos hc hf2
    by_cases hpc : pos = c
    · subst hpc
      simp [CheckSnakeNodesForPosAux, hl, (Vector2Equals_iff pos pos).mpr rfl]
    · have hne : Vector2Equals pos c = false := by
        rw [← Bool.not_eq_true, Vector2Equals_iff]
        exact hpc
      simp [CheckSnakeNodesForPosAux, hl, hne, ih, hpc]

/-- On a chain, `CheckSnakeNodesForPos` is the membership test on its cells. -/
theorem check_chain {h : Heap} (pos : Vector2) {l : List (Nat × Vector2)} {p : Ptr}
    (hc : Chain h p l) :
    CheckSnakeNodesForPos h pos p = some (decide (pos ∈ l.map Prod.snd)) :=
  checkAux_chain pos hc (Chain.length_le hc)

theorem getSecondLastAux_chain {h : Heap} {x y : Nat × Vector2} :
    ∀ {l : List (Nat × Vector2)} {p : Ptr} {fuel : Nat},
      Chain h p (l ++ [x, y]) → l.length + 1 ≤ fuel →
      GetSecondLastNodeAux h fuel p = some (some x.1)
  | _, _, 0, _, hf => by simp at hf
  | [], _, fuel + 1, hc, _ => by
    obtain ⟨a, c⟩ := x
    obtain ⟨b, d⟩ := y
    simp only [List.nil_append, Chain] at hc
    obtain ⟨hp, nxt, hl, hb, nxt2, hl2, hn⟩ := hc
    subst hp hb hn
    simp [GetSecondLastNodeAux, hl, hl2]
  | (a, c) :: l, _, fuel + 1, hc, hf => by
    simp only [List.cons_append, Chain] at hc
    obtain ⟨hp, nxt, hl, hc⟩ := hc
    subst hp
    have hc : Chain h nxt (l ++ [x, y]) := hc
    have hf2 : l.length + 1 ≤ fuel := by simpa using hf
    have ih := getSecondLastAux_chain hc hf2
    obtain ⟨⟨b, d⟩, rest, hrest⟩ : ∃ z rest, l ++ [x, y] = z :: rest := by
      cases l <;> simp
    have hne : rest ≠ [] := by
      intro hr
      have := congrArg List.length hrest
      simp [hr] at this
    rw [hrest] at hc
    obtain ⟨⟨e, f⟩, rest2, hrest2⟩ := List.exists_cons_of_ne_nil hne
    rw [hrest2] at hc
    simp only [Chain] at hc
    obtain ⟨hb, nxt2, hl2, he, hc3⟩ := hc
    subst hb he
    simp only [GetSecondLastNodeAux, hl, Option.bind_eq_bind, Option.some_bind, hl2]
    exact ih

theorem Chain.truncate {h : Heap} {x y : Nat × Vector2} :
    ∀ {l : List (Nat × Vector2)} {p : Ptr}, Chain h p (l ++ [x, y]) →
      Chain (h.set x.1 (some ⟨none, x.2⟩)) p (l ++ [x])
  | [], _, hc => by
    obtain ⟨a, c⟩ := x
    obtain ⟨b, d⟩ := y
    simp only [List.nil_append, Chain] at hc ⊢
    obtain ⟨hp, nxt, hl, _⟩ := hc
    exact ⟨hp, none, load_set_self _ (load_lt hl), rfl⟩
  | (a, c) :: l, _, hc => by
    have hnd := Chain.nodup hc
    simp only [List.cons_append, Chain] at hc ⊢
    obtain ⟨hp, nxt, hl, hc⟩ := hc
    refine ⟨hp, nxt, ?_, Chain.truncate hc⟩
    have hne : x.1 ≠ a := by
      intro hxa
      simp [hxa] at hnd
    rw [load_set_ne _ hne]
    exact hl

theorem newSnakeNode_ok (h : Heap) (next : Ptr) (pos : Vector2) :
    NewSnakeNode h true next pos = some (h ++ [some ⟨next, pos⟩], some h.length) := by
  simp [NewSnakeNode, MemAlloc, setNext, setPos, load]

theorem newSnakeNode_fail (h : Heap) (next : Ptr) (pos : Vector2) :
    NewSnakeNode h false next pos = some (h, none) := by
  simp [NewSnakeNode, MemAlloc]

/-- Growth on a chain: a fresh node in front, every old node as it was. -/
theorem move_grow_chain {h : Heap} {l : List (Nat × Vector2)} {p : Ptr} (newPos : Vector2)
    (hc : Chain h p l) (hne : l ≠ []) :
    MoveSnakeAndGetHead h p true newPos true
        = some (h ++ [some ⟨p, newPos⟩], some h.length)
      ∧ Chain (h ++ [some ⟨p, newPos⟩]) (some h.length) ((h.length, newPos) :: l) := by
  obtain ⟨x, l2, rfl⟩ := List.exists_cons_of_ne_nil hne
  have hp := Chain.head_eq hc
  subst hp
  refine ⟨?_, rfl, some x.1, load_append_length h _, Chain.frame_append _ hc⟩
  simp [MoveSnakeAndGetHead, newSnakeNode_ok]

theorem move_shift_single {h : Heap} {p : Ptr} {a : Nat} {c : Vector2}
    (hc : Chain h p [(a, c)]) (allocOk : Bool) (newPos : Vector2) :
    MoveSnakeAndGetHead h p allocOk newPos false
        = some (h.set a (some ⟨none, newPos⟩), some a)
      ∧ Chain (h.set a (some ⟨none, newPos⟩)) (some a) [(a, newPos)] := by
  simp only [Chain] at hc
  obtain ⟨hp, nxt, hl, hn⟩ := hc
  subst hp hn
  have ha := load_lt hl
  obtain ⟨n, hn⟩ : ∃ n, h.length = n + 1 := ⟨h.length - 1, by omega⟩
  have hgs : GetSecondLastNode h (some a) = some none := by
    simp [GetSecondLastNode, hn, GetSecondLastNodeAux, hl]
  refine ⟨?_, rfl, none, load_set_self _ ha, rfl⟩
  simp [MoveSnakeAndGetHead, hgs, setPos, hl]

theorem move_shift_chain {h : Heap} {p : Ptr} {l : List (Nat × Vector2)}
    {x y : Nat × Vector2} (hc : Chain h p (l ++ [x, y])) (allocOk : Bool)
    (newPos : Vector2) :
    ∃ h2, MoveSnakeAndGetHead h p allocOk newPos false = some (h2, some y.1)
      ∧ h2.length = h.length ∧ Chain h2 (some y.1) ((y.1, newPos) :: (l ++ [x])) := by
  have hnd := Chain.nodup hc
  have hlen := Chain.length_le hc
  have hgs : GetSecondLastNode h p = some (some x.1) :=
    getSecondLastAux_chain hc (by simp at hlen; omega)
  have hsuf : Chain h (some x.1) (x :: [y]) := Chain.suffix hc
  obtain ⟨a, c⟩ := x
  obtain ⟨b, d⟩ := y
  simp only [Chain] at hsuf
  obtain ⟨_, nxt, hla, hb, nxt2, hlb, hn2⟩ := hsuf
  subst hb hn2
  have hab : a ≠ b := by
    intro hab
    rw [List.map_append, List.nodup_append] at hnd
    have h2 := hnd.2.1
    simp [hab] at h2
  have hbl : b ∉ (l ++ [(a, c)]).map Prod.fst := by
    intro hmem
    rw [List.map_append, List.nodup_append] at hnd
    simp only [List.map_append, List.mem_append, List.map_cons, List.map_nil,
      List.mem_singleton] at hmem
    rcases hmem with hmem | hmem
    · exact hnd.2.2 hmem (by simp)
    · exact hab hmem.symm
  have ha := load_lt hla
  have hb := load_lt hlb
  obtain ⟨e, hp⟩ : ∃ e, p = some e := by
    cases l with
    | nil => exact ⟨a, Chain.head_eq hc⟩
    | cons z l2 => exact ⟨z.1, Chain.head_eq hc⟩
  have h1c : Chain (h.set a (some ⟨none, c⟩)) p (l ++ [(a, c)]) := Chain.truncate hc
  have h2c := Chain.frame_set b (some ⟨p, d⟩) h1c hbl
  have h3c := Chain.frame_set b (some ⟨p, newPos⟩) h2c hbl
  have hl1 : load (h.set a (some ⟨none, c⟩)) b = some ⟨none, d⟩ := by
    rw [load_set_ne _ hab]
    exact hlb
  have hl2 : load ((h.set a (some ⟨none, c⟩)).set b (some ⟨p, d⟩)) b = some ⟨p, d⟩ :=
    load_set_self _ (by simpa using hb)
  refine ⟨(((h.set a (some ⟨none, c⟩)).set b (some ⟨p, d⟩)).set b (some ⟨p, newPos⟩)),
    ?_, by simp, rfl, p, load_set_self _ (by simpa using hb), h3c⟩
  subst hp
  simp only [MoveSnakeAndGetHead, hgs, Option.bind_eq_bind, Option.some_bind, hla, setNext,
    Option.map_some', hl1, setPos, hl2, Bool.false_eq_true, if_false]

/-- A move without growth on a chain: no allocation, and the cells afterwards are the new
head cell followed by the old cells without the last one. -/
theorem move_shift {h : Heap} {p : Ptr} {l : List (Nat × Vector2)} (hc : Chain h p l)
    (hne : l ≠ []) (allocOk : Bool) (newPos : Vector2) :
    ∃ h2 a l2, MoveSnakeAndGetHead h p allocOk newPos false = some (h2, some a)
      ∧ h2.length = h.length ∧ Chain h2 (some a) l2
      ∧ l2.map Prod.snd = newPos :: (l.map Prod.snd).dropLast := by
  obtain ⟨l1, y, rfl⟩ : ∃ l1 y, l = l1 ++ [y] :=
    ⟨l.dropLast, l.getLast hne, (List.dropLast_concat_getLast hne).symm⟩
  by_cases h1 : l1 = []
  · subst h1
    obtain ⟨a, c⟩ := y
    obtain ⟨hm, hc2⟩ := move_shift_single hc allocOk newPos
    exact ⟨_, a, _, hm, by simp, hc2, by simp⟩
  · obtain ⟨l0, x, rfl⟩ : ∃ l0 x, l1 = l0 ++ [x] :=
      ⟨l1.dropLast, l1.getLast h1, (List.dropLast_concat_getLast h1).symm⟩
    have hc2 : Chain h p (l0 ++ [x, y]) := by simpa using hc
    obtain ⟨h2, hm, hlen, hc3⟩ := move_shift_chain hc2 allocOk newPos
    refine ⟨h2, y.1, _, hm, hlen, hc3, ?_⟩
    simp [List.dropLast_concat]

theorem deleteAux_chain {h : Heap} : ∀ {l : List (Nat × Vector2)} {p : Ptr} {fuel : Nat},
    Chain h p l → l.length ≤ fuel →
    ∃ h2, DeleteSnakeNodeAux fuel h p = some h2 ∧ h2.length = h.length
      ∧ ∀ b, b ∉ l.map Prod.fst → load h2 b = load h b
  | [], _, fuel, hc, _ => by
    simp only [Chain] at hc
    subst hc
    exact ⟨h, by cases fuel <;> simp [DeleteSnakeNodeAux], rfl, fun _ _ => rfl⟩
  | (a, c) :: l, _, 0, _, hf => by simp at hf
  | (a, c) :: l, _, fuel + 1, hc, hf => by
    have hnd := Chain.nodup hc
    simp only [Chain] at hc
    obtain ⟨hp, nxt, hl, hc⟩ := hc
    subst hp
    have hf2 : l.length ≤ fuel := by simpa using hf
    obtain ⟨h1, hd, hlen, hfr⟩ := deleteAux_chain hc hf2
    have hal : a ∉ l.map Prod.fst := by
      simp only [List.map_cons, List.nodup_cons] at hnd
      exact hnd.1
    have hl1 : load h1 a = some ⟨nxt, c⟩ := by
      rw [hfr a hal]
      exact hl
    refine ⟨h1.set a none, ?_, by simpa using hlen, ?_⟩
    · simp [DeleteSnakeNodeAux, hl, hd, MemFree, hl1]
    · intro b hb
      simp only [List.map_cons, List.mem_cons, not_or] at hb
      rw [load_set_ne _ (Ne.symm hb.1)]
      exact hfr b hb.2

/-- Deleting a chain returns, and frees without handing out any address. -/
theorem delete_chain {h : Heap} {l : List (Nat × Vector2)} {p : Ptr} (hc : Chain h p l) :
    ∃ h2, DeleteSnakeNode h p = some h2 ∧ h2.length = h.length :=
  let ⟨h2, hd, hlen, _⟩ := deleteAux_chain hc (Chain.length_le hc)
  ⟨h2, hd, hlen⟩

theorem headOkay_chain {g : Game} {a : Nat} {c : Vector2} {l : List (Nat × Vector2)}
    (hc : Chain g.heap g.snakeHead ((a, c) :: l)) :
    IsSnakeHeadPosOkay g = some (decide (inBoard c ∧ c ∉ l.map Prod.snd)) := by
  simp only [Chain] at hc
  obtain ⟨hp, nxt, hl, hc⟩ := hc
  have hck := check_chain c hc
  by_cases hb : inBoard c
  · have hnot : ¬ (c.x < 0 ∨ c.y < 0 ∨ c.x > boardWidth - 1 ∨ c.y > boardHeight - 1) := by
      unfold inBoard at hb
      omega
    simp [IsSnakeHeadPosOkay, hp, hl, hnot, hck, hb]
  · have hout : c.x < 0 ∨ c.y < 0 ∨ c.x > boardWidth - 1 ∨ c.y > boardHeight - 1 := by
      unfold inBoard at hb
      omega
    simp [IsSnakeHeadPosOkay, hp, hl, hout, hb]

theorem placeLoop_found {h : Heap} {p : Ptr} {l : List (Nat × Vector2)}
    (rand : Nat → Nat × Nat) (hc : Chain h p l) :
    ∀ (j i k fuel : Nat), i + j < maxFruitPlaceAtttempts → j < fuel →
      (∀ m, m < j → GetRandomTilePos (rand (k + m)) ∈ l.map Prod.snd) →
      GetRandomTilePos (rand (k + j)) ∉ l.map Prod.snd →
      PlaceFruitLoop h p rand fuel i k
        = some (GetRandomTilePos (rand (k + j)), i + j, k + j + 1)
  | _, _, _, 0, _, hf, _, _ => by simp at hf
  | 0, i, k, fuel + 1, _, _, _, hfree => by
    simp only [Nat.add_zero] at hfree ⊢
    simp [PlaceFruitLoop, check_chain _ hc, hfree]
  | j + 1, i, k, fuel + 1, hi, hf, hocc, hfree => by
    have h0 : GetRandomTilePos (rand k) ∈ l.map Prod.snd := by simpa using hocc 0 (by omega)
    have hi2 : i + 1 < maxFruitPlaceAtttempts := by omega
    have ih := placeLoop_found rand hc j (i + 1) (k + 1) fuel (by omega) (by omega)
      (fun m hm => by
        have := hocc (m + 1) (by omega)
        rwa [show k + 1 + m = k + (m + 1) by omega])
      (by rwa [show k + 1 + j = k + (j + 1) by omega])
    rw [show k + 1 + j = k + (j + 1) by omega, show i + 1 + j = i + (j + 1) by omega] at ih
    simp only [PlaceFruitLoop, check_chain _ hc, Option.bind_eq_bind, Option.some_bind]
    simp only [h0, decide_True, if_true, hi2]
    exact ih

theorem placeLoop_full {h : Heap} {p : Ptr} {l : List (Nat × Vector2)}
    (rand : Nat → Nat × Nat) (hc : Chain h p l) :
    ∀ (n i k fuel : Nat), i + n + 1 = maxFruitPlaceAtttempts → n < fuel →
      (∀ m, m ≤ n → GetRandomTilePos (rand (k + m)) ∈ l.map Prod.snd) →
      PlaceFruitLoop h p rand fuel i k
        = some (GetRandomTilePos (rand (k + n)), maxFruitPlaceAtttempts, k + n + 1)
  | _, _, _, 0, _, hf, _ => by simp at hf
  | 0, i, k, fuel + 1, hi, _, hocc => by
    have h0 : GetRandomTilePos (rand k) ∈ l.map Prod.snd := by simpa using hocc 0 (by omega)
    have hi2 : ¬ i + 1 < maxFruitPlaceAtttempts := by omega
    simp only [PlaceFruitLoop, check_chain _ hc, Option.bind_eq_bind, Option.some_bind]
    simp only [h0, decide_True, if_true, hi2, if_false, Nat.add_zero]
    rw [show i + 1 = maxFruitPlaceAtttempts by omega]
  | n + 1, i, k, fuel + 1, hi, hf, hocc => by
    have h0 : GetRandomTilePos (rand k) ∈ l.map Prod.snd := by simpa using hocc 0 (by omega)
    have hi2 : i + 1 < maxFruitPlaceAtttempts := by omega
    have ih := placeLoop_full rand hc n (i + 1) (k + 1) fuel (by omega) (by omega)
      (fun m hm => by
        have := hocc (m + 1) (by omega)
        rwa [show k + 1 + m = k + (m + 1) by omega])
    rw [show k + 1 + n = k + (n + 1) by omega] at ih
    simp only [PlaceFruitLoop, check_chain _ hc, Option.bind_eq_bind, Option.some_bind]
    simp only [h0, decide_True, if_true, hi2]
    exact ih

/-- When the draw number `j` is the first one off the snake and comes within the cap,
`PlaceFruit` succeeds with that cell after `j + 1` draws. -/
theorem placeFruit_found {g : Game} {l : List (Nat × Vector2)} (rand : Nat → Nat × Nat)
    (hc : Chain g.heap g.snakeHead l) (j : Nat) (hj : j < maxFruitPlaceAtttempts)
    (hocc : ∀ m, m < j → GetRandomTilePos (rand m) ∈ l.map Prod.snd)
    (hfree : GetRandomTilePos (rand j) ∉ l.map Prod.snd) :
    PlaceFruit rand g = some (true, { g with fruitPos := GetRandomTilePos (rand j) }, j + 1) := by
  have hl := placeLoop_found rand hc j 0 0 maxFruitPlaceAtttempts (by omega) hj
    (by simpa using hocc) (by simpa using hfree)
  simp only [Nat.zero_add] at hl
  simp [PlaceFruit, hl, hj]

/-- When all the draws within the cap fall on the snake, `PlaceFruit` fails after exactly
that many draws and leaves the last drawn cell as the fruit cell. -/
theorem placeFruit_full {g : Game} {l : List (Nat × Vector2)} (rand : Nat → Nat × Nat)
    (hc : Chain g.heap g.snakeHead l)
    (hocc : ∀ m, m < maxFruitPlaceAtttempts → GetRandomTilePos (rand m) ∈ l.map Prod.snd) :
    PlaceFruit rand g = some (false,
      { g with fruitPos := GetRandomTilePos (rand (maxFruitPlaceAtttempts - 1)) },
      maxFruitPlaceAtttempts) := by
  have hl := placeLoop_full rand hc (maxFruitPlaceAtttempts - 1) 0 0 maxFruitPlaceAtttempts
    (by simp [maxFruitPlaceAtttempts]) (by simp [maxFruitPlaceAtttempts])
    (fun m hm => by
      have := hocc m (by simp [maxFruitPlaceAtttempts] at hm ⊢; omega)
      simpa using this)
  simp only [Nat.zero_add] at hl
  have h400 : maxFruitPlaceAtttempts - 1 + 1 = maxFruitPlaceAtttempts := by
    simp [maxFruitPlaceAtttempts]
  rw [h400] at hl
  simp [PlaceFruit, hl]

/-- On a chain `PlaceFruit` always returns; only the fruit cell of the state changes. -/
theorem placeFruit_returns {g : Game} {l : List (Nat × Vector2)} (rand : Nat → Nat × Nat)
    (hc : Chain g.heap g.snakeHead l) :
    ∃ placed fruit k, PlaceFruit rand g = some (placed, { g with fruitPos := fruit }, k) := by
  by_cases hex : ∃ j, j < maxFruitPlaceAtttempts ∧ GetRandomTilePos (rand j) ∉ l.map Prod.snd
  · have hj := Nat.find_spec hex
    exact ⟨true, _, _, placeFruit_found rand hc (Nat.find hex) hj.1
      (fun m hm => by
        by_contra hcon
        exact Nat.find_min hex hm ⟨lt_trans hm hj.1, hcon⟩) hj.2⟩
  · exact ⟨false, _, _, placeFruit_full rand hc (fun m hm => by
      by_contra hcon
      exact hex ⟨m, hm, hcon⟩)⟩

/-! ## One call of `UpdateGame` on a chain -/

theorem bufferInput_fields (keys : Keys) (g : Game) :
    (bufferInput keys g).heap = g.heap ∧ (bufferInput keys g).snakeHead = g.snakeHead
      ∧ (bufferInput keys g).gameStatus = g.gameStatus
      ∧ (bufferInput keys g).score = g.score ∧ (bufferInput keys g).fruitPos = g.fruitPos
      ∧ (bufferInput keys g).snakeMoveTimer = g.snakeMoveTimer
      ∧ (bufferInput keys g).snakeDirection = g.snakeDirection := by
  simp only [bufferInput]
  split_ifs <;> simp

theorem takeDirection_fields (g : Game) :
    (takeDirection g).heap = g.heap ∧ (takeDirection g).snakeHead = g.snakeHead
      ∧ (takeDirection g).gameStatus = g.gameStatus
      ∧ (takeDirection g).score = g.score ∧ (takeDirection g).fruitPos = g.fruitPos
      ∧ (takeDirection g).snakeMoveTimer = g.snakeMoveTimer := by
  unfold takeDirection
  split <;> simp

theorem timed_fields (delta : ℚ) (keys : Keys) (g : Game) :
    (timed delta keys g).heap = g.heap ∧ (timed delta keys g).snakeHead = g.snakeHead
      ∧ (timed delta keys g).gameStatus = g.gameStatus
      ∧ (timed delta keys g).score = g.score ∧ (timed delta keys g).fruitPos = g.fruitPos
      ∧ (timed delta keys g).snakeMoveTimer = g.snakeMoveTimer - delta := by
  obtain ⟨h1, h2, h3, h4, h5, h6, _⟩ := bufferInput_fields keys g
  simp [timed, h1, h2, h3, h4, h5, h6]

theorem takeDirection_timed_direction (delta : ℚ) (keys : Keys) (g : Game) :
    (takeDirection (timed delta keys g)).snakeDirection = activeDirection keys g := by
  unfold activeDirection takeDirection timed
  simp only
  split <;> rfl

theorem turned_fields (delta : ℚ) (keys : Keys) (g : Game) :
    (turned delta keys g).heap = g.heap ∧ (turned delta keys g).snakeHead = g.snakeHead
      ∧ (turned delta keys g).gameStatus = g.gameStatus
      ∧ (turned delta keys g).score = g.score ∧ (turned delta keys g).fruitPos = g.fruitPos
      ∧ (turned delta keys g).snakeMoveTimer = g.snakeMoveTimer - delta
      ∧ (turned delta keys g).snakeDirection = activeDirection keys g := by
  obtain ⟨h1, h2, h3, h4, h5, h6⟩ := takeDirection_fields (timed delta keys g)
  obtain ⟨k1, k2, k3, k4, k5, k6⟩ := timed_fields delta keys g
  unfold turned
  exact ⟨h1.trans k1, h2.trans k2, h3.trans k3, h4.trans k4, h5.trans k5, h6.trans k6,
    takeDirection_timed_direction delta keys g⟩

theorem updateGame_unfold (delta : ℚ) (keys : Keys) (rand : Nat → Nat × Nat) (allocOk : Bool)
    (g : Game) :
    UpdateGame delta keys rand allocOk g
      = ((if (timed delta keys g).snakeMoveTimer ≤ 0
            then moveAndEat rand allocOk (turned delta keys g)
            else some (timed delta keys g)).bind fun g1 =>
          (IsSnakeHeadPosOkay g1).bind fun okay =>
            some { g1 with gameStatus := if okay then g1.gameStatus else GameStatus.LOST }) := by
  by_cases h : (timed delta keys g).snakeMoveTimer ≤ 0
  · rw [if_pos h]
    exact if_pos h
  · rw [if_neg h]
    exact if_neg h

/-- A call on which the timer does not elapse: nothing moves, the head is checked. -/
theorem updateGame_wait {g : Game} {a : Nat} {c : Vector2} {l : List (Nat × Vector2)}
    (delta : ℚ) (keys : Keys) (rand : Nat → Nat × Nat) (allocOk : Bool)
    (hc : Chain g.heap g.snakeHead ((a, c) :: l)) (ht : ¬ elapsed delta g) :
    UpdateGame delta keys rand allocOk g
      = some { timed delta keys g with
          gameStatus := if inBoard c ∧ c ∉ l.map Prod.snd then g.gameStatus
            else GameStatus.LOST } := by
  obtain ⟨k1, k2, k3, k4, k5, k6⟩ := timed_fields delta keys g
  have ht2 : ¬ (timed delta keys g).snakeMoveTimer ≤ 0 := by
    rw [k6]
    exact ht
  have hc2 : Chain (timed delta keys g).heap (timed delta keys g).snakeHead ((a, c) :: l) := by
    rw [k1, k2]
    exact hc
  rw [updateGame_unfold, if_neg ht2]
  simp only [Option.some_bind, headOkay_chain hc2, k3, decide_eq_true_eq]

theorem moveAndEat_shift {s : Game} {a : Nat} {c : Vector2} {l : List (Nat × Vector2)}
    (rand : Nat → Nat × Nat) (allocOk : Bool)
    (hc : Chain s.heap s.snakeHead ((a, c) :: l))
    (hf : Vector2Add c s.snakeDirection ≠ s.fruitPos) :
    ∃ h2 a2 l2, Chain h2 (some a2) ((a2, Vector2Add c s.snakeDirection) :: l2)
      ∧ l2.map Prod.snd = (c :: l.map Prod.snd).dropLast
      ∧ h2.length = s.heap.length
      ∧ moveAndEat rand allocOk s
        = some { s with
            heap := h2
            snakeHead := some a2
            snakeMoveTimer := s.snakeMoveTimer + snakeMoveTimerStart } := by
  obtain ⟨h2, a2, l3, hm, hlen, hc3, hmap⟩ :=
    move_shift hc (by simp) allocOk (Vector2Add c s.snakeDirection)
  obtain ⟨⟨a3, c3⟩, l2, rfl⟩ : ∃ z l2, l3 = z :: l2 := by
    cases l3 with
    | nil => simp at hmap
    | cons z l2 => exact ⟨z, l2, rfl⟩
  simp only [List.map_cons, List.cons.injEq] at hmap
  obtain ⟨hc3a, hmap⟩ := hmap
  have ha3 : a3 = a2 := by
    have := Chain.head_eq hc3
    simpa using this.symm
  subst hc3a ha3
  obtain ⟨hhead, nxt, hl, _⟩ := hc
  have hne : Vector2Equals (Vector2Add c s.snakeDirection) s.fruitPos = false := by
    rw [← Bool.not_eq_true, Vector2Equals_iff]
    exact hf
  refine ⟨h2, a3, l2, hc3, hmap, hlen, ?_⟩
  unfold moveAndEat
  rw [hhead] at hm
  simp only [hhead, Option.bind_eq_bind, Option.some_bind, hl, hne, Bool.false_eq_true,
    if_false, hm]

theorem moveAndEat_grow {s : Game} {a : Nat} {c : Vector2} {l : List (Nat × Vector2)}
    (rand : Nat → Nat × Nat)
    (hc : Chain s.heap s.snakeHead ((a, c) :: l))
    (hf : Vector2Add c s.snakeDirection = s.fruitPos) :
    ∃ placed fruit k,
      PlaceFruit rand { s with score := s.score + 1 }
        = some (placed, { s with score := s.score + 1, fruitPos := fruit }, k)
      ∧ moveAndEat rand true s
        = some { s with
            heap := s.heap ++ [some ⟨s.snakeHead, s.fruitPos⟩]
            snakeHead := some s.heap.length
            snakeMoveTimer := s.snakeMoveTimer + snakeMoveTimerStart
            score := s.score + 1
            fruitPos := fruit
            gameStatus := if placed then s.gameStatus else GameStatus.WON } := by
  have hc1 : Chain ({ s with score := s.score + 1 } : Game).heap
      ({ s with score := s.score + 1 } : Game).snakeHead ((a, c) :: l) := hc
  obtain ⟨placed, fruit, k, hpf⟩ := placeFruit_returns rand hc1
  dsimp only at hpf
  have hm := (move_grow_chain (Vector2Add c s.snakeDirection) hc (by simp)).1
  obtain ⟨hhead, nxt, hl, _⟩ := hc
  have heq : Vector2Equals (Vector2Add c s.snakeDirection) s.fruitPos = true :=
    (Vector2Equals_iff _ _).mpr hf
  refine ⟨placed, fruit, k, hpf, ?_⟩
  unfold moveAndEat
  rw [hhead] at hm hpf
  simp only [hhead, Option.bind_eq_bind, Option.some_bind, hl, heq, if_true, hpf, hm]
  rw [hf]

/-- A call on which the timer elapses and the prospective head cell is not the fruit cell:
the snake shifts by one cell and the new head is checked. -/
theorem updateGame_shift {g : Game} {a : Nat} {c : Vector2} {l : List (Nat × Vector2)}
    (delta : ℚ) (keys : Keys) (rand : Nat → Nat × Nat) (allocOk : Bool)
    (hc : Chain g.heap g.snakeHead ((a, c) :: l)) (ht : elapsed delta g)
    (hf : prospectiveHead keys g c ≠ g.fruitPos) :
    ∃ h2 a2 l2, Chain h2 (some a2) ((a2, prospectiveHead keys g c) :: l2)
      ∧ l2.map Prod.snd = (c :: l.map Prod.snd).dropLast
      ∧ h2.length = g.heap.length
      ∧ UpdateGame delta keys rand allocOk g
        = some { turned delta keys g with
            heap := h2
            snakeHead := some a2
            snakeMoveTimer := g.snakeMoveTimer - delta + snakeMoveTimerStart
            gameStatus :=
              if inBoard (prospectiveHead keys g c)
                  ∧ prospectiveHead keys g c ∉ (c :: l.map Prod.snd).dropLast
                then g.gameStatus else GameStatus.LOST } := by
  obtain ⟨k1, k2, k3, k4, k5, k6, k7⟩ := turned_fields delta keys g
  have ht2 : (timed delta keys g).snakeMoveTimer ≤ 0 := by
    rw [(timed_fields delta keys g).2.2.2.2.2]
    exact ht
  have hc2 : Chain (turned delta keys g).heap (turned delta keys g).snakeHead
      ((a, c) :: l) := by
    rw [k1, k2]
    exact hc
  have hf2 : Vector2Add c (turned delta keys g).snakeDirection
      ≠ (turned delta keys g).fruitPos := by
    rw [k5, k7]
    exact hf
  obtain ⟨h2, a2, l2, hc3, hmap, hlen, hmv⟩ := moveAndEat_shift rand allocOk hc2 hf2
  rw [k7] at hc3
  refine ⟨h2, a2, l2, hc3, hmap, hlen.trans (by rw [k1]), ?_⟩
  rw [updateGame_unfold, if_pos ht2, hmv]
  have hc4 : Chain ({ turned delta keys g with
      heap := h2
      snakeHead := some a2
      snakeMoveTimer := (turned delta keys g).snakeMoveTimer + snakeMoveTimerStart } : Game).heap
      ({ turned delta keys g with
      heap := h2
      snakeHead := some a2
      snakeMoveTimer := (turned delta keys g).snakeMoveTimer
        + snakeMoveTimerStart } : Game).snakeHead
      ((a2, prospectiveHead keys g c) :: l2) := hc3
  have hok := headOkay_chain hc4
  simp only [k3, k6] at hok ⊢
  simp only [Option.some_bind, hok, hmap, decide_eq_true_eq]

/-- A call on which the timer elapses and the prospective head cell is the fruit cell, the
allocation succeeding: the score goes up, a fruit is placed, the snake grows by the fruit
cell and the new head is checked. -/
theorem updateGame_grow {g : Game} {a : Nat} {c : Vector2} {l : List (Nat × Vector2)}
    (delta : ℚ) (keys : Keys) (rand : Nat → Nat × Nat)
    (hc : Chain g.heap g.snakeHead ((a, c) :: l)) (ht : elapsed delta g)
    (hf : prospectiveHead keys g c = g.fruitPos) :
    ∃ placed fruit k,
      PlaceFruit rand { turned delta keys g with score := g.score + 1 }
        = some (placed,
            { turned delta keys g with score := g.score + 1, fruitPos := fruit }, k)
      ∧ Chain (g.heap ++ [some ⟨g.snakeHead, g.fruitPos⟩]) (some g.heap.length)
          ((g.heap.length, g.fruitPos) :: (a, c) :: l)
      ∧ UpdateGame delta keys rand true g
        = some { turned delta keys g with
            heap := g.heap ++ [some ⟨g.snakeHead, g.fruitPos⟩]
            snakeHead := some g.heap.length
            snakeMoveTimer := g.snakeMoveTimer - delta + snakeMoveTimerStart
            score := g.score + 1
            fruitPos := fruit
            gameStatus :=
              if inBoard g.fruitPos ∧ g.fruitPos ∉ c :: l.map Prod.snd
                then (if placed then g.gameStatus else GameStatus.WON)
                else GameStatus.LOST } := by
  obtain ⟨k1, k2, k3, k4, k5, k6, k7⟩ := turned_fields delta keys g
  have ht2 : (timed delta keys g).snakeMoveTimer ≤ 0 := by
    rw [(timed_fields delta keys g).2.2.2.2.2]
    exact ht
  have hc2 : Chain (turned delta keys g).heap (turned delta keys g).snakeHead
      ((a, c) :: l) := by
    rw [k1, k2]
    exact hc
  have hf2 : Vector2Add c (turned delta keys g).snakeDirection
      = (turned delta keys g).fruitPos := by
    rw [k5, k7]
    exact hf
  obtain ⟨placed, fruit, k, hpf, hmv⟩ := moveAndEat_grow rand hc2 hf2
  have hc3 := (move_grow_chain g.fruitPos hc (by simp)).2
  rw [k4] at hpf
  refine ⟨placed, fruit, k, hpf, hc3, ?_⟩
  rw [updateGame_unfold, if_pos ht2, hmv]
  have hc4 : Chain ({ turned delta keys g with
      heap := (turned delta keys g).heap
        ++ [some ⟨(turned delta keys g).snakeHead, (turned delta keys g).fruitPos⟩]
      snakeHead := some (turned delta keys g).heap.length
      snakeMoveTimer := (turned delta keys g).snakeMoveTimer + snakeMoveTimerStart
      score := (turned delta keys g).score + 1
      fruitPos := fruit
      gameStatus := if placed then (turned delta keys g).gameStatus
        else GameStatus.WON } : Game).heap
      ({ turned delta keys g with
      heap := (turned delta keys g).heap
        ++ [some ⟨(turned delta keys g).snakeHead, (turned delta keys g).fruitPos⟩]
      snakeHead := some (turned delta keys g).heap.length
      snakeMoveTimer := (turned delta keys g).snakeMoveTimer + snakeMoveTimerStart
      score := (turned delta keys g).score + 1
      fruitPos := fruit
      gameStatus := if placed then (turned delta keys g).gameStatus
        else GameStatus.WON } : Game).snakeHead
      ((g.heap.length, g.fruitPos) :: (a, c) :: l) := by
    simp only [k1, k2, k5]
    exact hc3
  have hok := headOkay_chain hc4
  simp only [k1, k2, k3, k4, k5, k6] at hok ⊢
  simp only [Option.some_bind, hok, decide_eq_true_eq, List.map_cons]

theorem getRandomTilePos_inBoard (raw : Nat × Nat) : inBoard (GetRandomTilePos raw) := by
  simp only [inBoard, GetRandomTilePos, GetRandomValue, boardWidth, boardHeight]
  omega

/-- The two ways in which `PlaceFruit` ends on a chain. -/
theorem placeFruit_cases {g : Game} {l : List (Nat × Vector2)} (rand : Nat → Nat × Nat)
    (hc : Chain g.heap g.snakeHead l) :
    (∃ j, j < maxFruitPlaceAtttempts
        ∧ (∀ m, m < j → GetRandomTilePos (rand m) ∈ l.map Prod.snd)
        ∧ GetRandomTilePos (rand j) ∉ l.map Prod.snd
        ∧ PlaceFruit rand g
          = some (true, { g with fruitPos := GetRandomTilePos (rand j) }, j + 1))
      ∨ ((∀ m, m < maxFruitPlaceAtttempts → GetRandomTilePos (rand m) ∈ l.map Prod.snd)
        ∧ PlaceFruit rand g = some (false,
            { g with fruitPos := GetRandomTilePos (rand (maxFruitPlaceAtttempts - 1)) },
            maxFruitPlaceAtttempts)) := by
  by_cases hex : ∃ j, j < maxFruitPlaceAtttempts ∧ GetRandomTilePos (rand j) ∉ l.map Prod.snd
  · have hj := Nat.find_spec hex
    have hocc : ∀ m, m < Nat.find hex → GetRandomTilePos (rand m) ∈ l.map Prod.snd := by
      intro m hm
      by_contra hcon
      exact Nat.find_min hex hm ⟨lt_trans hm hj.1, hcon⟩
    exact Or.inl ⟨Nat.find hex, hj.1, hocc, hj.2, placeFruit_found rand hc _ hj.1 hocc hj.2⟩
  · have hocc : ∀ m, m < maxFruitPlaceAtttempts →
        GetRandomTilePos (rand m) ∈ l.map Prod.snd := by
      intro m hm
      by_contra hcon
      exact hex ⟨m, hm, hcon⟩
    exact Or.inr ⟨hocc, placeFruit_full rand hc hocc⟩

theorem placeFruit_congr (rand : Nat → Nat × Nat) (g1 g2 : Game) (hh : g1.heap = g2.heap)
    (hp : g1.snakeHead = g2.snakeHead) :
    (PlaceFruit rand g1).map (fun r => (r.1, r.2.1.fruitPos, r.2.2))
      = (PlaceFruit rand g2).map (fun r => (r.1, r.2.1.fruitPos, r.2.2)) := by
  unfold PlaceFruit
  rw [hh, hp]
  cases PlaceFruitLoop g2.heap g2.snakeHead rand maxFruitPlaceAtttempts 0 0 <;> rfl

theorem updateGame_null (delta : ℚ) (keys : Keys) (rand : Nat → Nat × Nat) (allocOk : Bool)
    {g : Game} (hs : g.snake = some []) : UpdateGame delta keys rand allocOk g = none := by
  obtain ⟨l, hc, hmap⟩ := snake_eq_some_iff.mp hs
  have hl : l = [] := by simpa using hmap
  subst hl
  have hnull : g.snakeHead = none := hc
  obtain ⟨_, k2, _⟩ := turned_fields delta keys g
  obtain ⟨_, t2, _⟩ := timed_fields delta keys g
  rw [updateGame_unfold]
  split_ifs
  · simp [moveAndEat, k2, hnull]
  · simp [IsSnakeHeadPosOkay, t2, hnull]

theorem moveAndEat_grow_fail {s : Game} {a : Nat} {c : Vector2} {l : List (Nat × Vector2)}
    (rand : Nat → Nat × Nat)
    (hc : Chain s.heap s.snakeHead ((a, c) :: l))
    (hf : Vector2Add c s.snakeDirection = s.fruitPos) :
    ∃ g1, moveAndEat rand false s = some g1 ∧ g1.snakeHead = none := by
  have hc1 : Chain ({ s with score := s.score + 1 } : Game).heap
      ({ s with score := s.score + 1 } : Game).snakeHead ((a, c) :: l) := hc
  obtain ⟨placed, fruit, k, hpf⟩ := placeFruit_returns rand hc1
  dsimp only at hpf
  obtain ⟨hhead, nxt, hl, _⟩ := hc
  have heq : Vector2Equals (Vector2Add c s.snakeDirection) s.fruitPos = true :=
    (Vector2Equals_iff _ _).mpr hf
  unfold moveAndEat
  rw [hhead] at hpf
  simp only [hhead, Option.bind_eq_bind, Option.some_bind, hl, heq, if_true, hpf,
    MoveSnakeAndGetHead, newSnakeNode_fail]
  exact ⟨_, rfl, rfl⟩

theorem updateGame_grow_fail {g : Game} {a : Nat} {c : Vector2} {l : List (Nat × Vector2)}
    (delta : ℚ) (keys : Keys) (rand : Nat → Nat × Nat)
    (hc : Chain g.heap g.snakeHead ((a, c) :: l)) (ht : elapsed delta g)
    (hf : prospectiveHead keys g c = g.fruitPos) :
    UpdateGame delta keys rand false g = none := by
  obtain ⟨k1, k2, k3, k4, k5, k6, k7⟩ := turned_fields delta keys g
  have ht2 : (timed delta keys g).snakeMoveTimer ≤ 0 := by
    rw [(timed_fields delta keys g).2.2.2.2.2]
    exact ht
  have hc2 : Chain (turned delta keys g).heap (turned delta keys g).snakeHead
      ((a, c) :: l) := by
    rw [k1, k2]
    exact hc
  have hf2 : Vector2Add c (turned delta keys g).snakeDirection
      = (turned delta keys g).fruitPos := by
    rw [k5, k7]
    exact hf
  obtain ⟨g1, hmv, hnone⟩ := moveAndEat_grow_fail rand hc2 hf2
  rw [updateGame_unfold, if_pos ht2, hmv]
  simp [IsSnakeHeadPosOkay, hnone]

/-- One call of `UpdateGame` on the body `c :: cs`, in terms of cells. The call returns as soon
as the allocation succeeds or no node is needed, and then one of three things happened:
nothing moved, the snake shifted, or the snake ate the fruit and grew. -/
theorem updateGame_summary {g : Game} {c : Vector2} {cs : List Vector2}
    (delta : ℚ) (keys : Keys) (rand : Nat → Nat × Nat) (allocOk : Bool)
    (hs : g.snake = some (c :: cs))
    (hal : allocOk = true ∨ ¬ (elapsed delta g ∧ prospectiveHead keys g c = g.fruitPos)) :
    ∃ g2, UpdateGame delta keys rand allocOk g = some g2
      ∧ ((¬ elapsed delta g ∧ g2.snake = some (c :: cs) ∧ g2.score = g.score
            ∧ g2.fruitPos = g.fruitPos
            ∧ g2.gameStatus = if inBoard c ∧ c ∉ cs then g.gameStatus else GameStatus.LOST)
        ∨ (elapsed delta g ∧ prospectiveHead keys g c ≠ g.fruitPos
            ∧ g2.snake = some (prospectiveHead keys g c :: (c :: cs).dropLast)
            ∧ g2.score = g.score ∧ g2.fruitPos = g.fruitPos
            ∧ g2.gameStatus =
              if inBoard (prospectiveHead keys g c)
                  ∧ prospectiveHead keys g c ∉ (c :: cs).dropLast
                then g.gameStatus else GameStatus.LOST)
        ∨ (elapsed delta g ∧ prospectiveHead keys g c = g.fruitPos
            ∧ g2.snake = some (prospectiveHead keys g c :: c :: cs)
            ∧ g2.score = g.score + 1
            ∧ ∃ placed k,
              (PlaceFruit rand g).map (fun r => (r.1, r.2.1.fruitPos, r.2.2))
                = some (placed, g2.fruitPos, k)
              ∧ g2.gameStatus =
                if inBoard (prospectiveHead keys g c) ∧ prospectiveHead keys g c ∉ c :: cs
                  then (if placed then g.gameStatus else GameStatus.WON)
                  else GameStatus.LOST)) := by
  obtain ⟨l0, hc, hmap⟩ := snake_eq_some_iff.mp hs
  obtain ⟨⟨a, c0⟩, l, rfl⟩ : ∃ z l, l0 = z :: l := by
    cases l0 with
    | nil => simp at hmap
    | cons z l => exact ⟨z, l, rfl⟩
  simp only [List.map_cons, List.cons.injEq] at hmap
  obtain ⟨hc0, hcs⟩ := hmap
  subst hc0 hcs
  by_cases ht : elapsed delta g
  · by_cases hf : prospectiveHead keys g c0 = g.fruitPos
    · have hok : allocOk = true := by
        rcases hal with hal | hal
        · exact hal
        · exact absurd ⟨ht, hf⟩ hal
      subst hok
      obtain ⟨placed, fruit, k, hpf, hc3, hup⟩ := updateGame_grow delta keys rand hc ht hf
      obtain ⟨k1, k2, _⟩ := turned_fields delta keys g
      have hcongr := placeFruit_congr rand
        { turned delta keys g with score := g.score + 1 } g k1 k2
      rw [hpf] at hcongr
      refine ⟨_, hup, Or.inr (Or.inr ⟨ht, hf, ?_, rfl, placed, k, hcongr.symm, ?_⟩)⟩
      · rw [hf]
        exact snake_eq_some_iff.mpr ⟨_, hc3, rfl⟩
      · rw [hf]
    · obtain ⟨h2, a2, l2, hc3, hmap, _, hup⟩ :=
        updateGame_shift delta keys rand allocOk hc ht hf
      obtain ⟨_, _, _, k4, k5, _⟩ := turned_fields delta keys g
      refine ⟨_, hup, Or.inr (Or.inl ⟨ht, hf, ?_, k4, k5, rfl⟩)⟩
      exact snake_eq_some_iff.mpr ⟨_, hc3, by simp [hmap]⟩
  · have hup := updateGame_wait delta keys rand allocOk hc ht
    obtain ⟨k1, k2, _, k4, k5, _⟩ := timed_fields delta keys g
    refine ⟨_, hup, Or.inl ⟨ht, ?_, k4, k5, rfl⟩⟩
    refine snake_eq_some_iff.mpr ⟨(a, c0) :: l, ?_, rfl⟩
    show Chain (timed delta keys g).heap (timed delta keys g).snakeHead ((a, c0) :: l)
    rw [k1, k2]
    exact hc

/-- A call of `UpdateGame` that returns has a non-empty snake to work on and, when it eats,
a successful allocation. -/
theorem updateGame_returns_inv {g g2 : Game} {cells : List Vector2}
    (delta : ℚ) (keys : Keys) (rand : Nat → Nat × Nat) (allocOk : Bool)
    (hs : g.snake = some cells) (hup : UpdateGame delta keys rand allocOk g = some g2) :
    ∃ c cs, cells = c :: cs
      ∧ (allocOk = true ∨ ¬ (elapsed delta g ∧ prospectiveHead keys g c = g.fruitPos)) := by
  cases cells with
  | nil =>
    rw [updateGame_null delta keys rand allocOk hs] at hup
    cases hup
  | cons c cs =>
    refine ⟨c, cs, rfl, ?_⟩
    by_contra hcon
    rw [not_or, not_not] at hcon
    obtain ⟨hal, ht, hf⟩ := hcon
    have hal2 : allocOk = false := by simpa using hal
    subst hal2
    obtain ⟨l0, hc, hmap⟩ := snake_eq_some_iff.mp hs
    obtain ⟨⟨a, c0⟩, l, rfl⟩ : ∃ z l, l0 = z :: l := by
      cases l0 with
      | nil => simp at hmap
      | cons z l => exact ⟨z, l, rfl⟩
    simp only [List.map_cons, List.cons.injEq] at hmap
    obtain ⟨hc0, _⟩ := hmap
    subst hc0
    rw [updateGame_grow_fail delta keys rand hc ht hf] at hup
    cases hup

theorem eatsFruit_eq {g : Game} {c : Vector2} {cs : List Vector2} (delta : ℚ) (keys : Keys)
    (hs : g.snake = some (c :: cs)) :
    eatsFruit delta keys g = true ↔ elapsed delta g ∧ prospectiveHead keys g c = g.fruitPos := by
  simp [eatsFruit, hs, Vector2Equals_iff]

/-- One call changes the length of a non-empty body by one if it eats and not at all if it
does not. -/
theorem updateGame_length {g : Game} {cells : List Vector2} (delta : ℚ) (keys : Keys)
    (rand : Nat → Nat × Nat) (hs : g.snake = some cells) (hne : cells ≠ []) :
    ∃ g2 cells2, UpdateGame delta keys rand true g = some g2 ∧ g2.snake = some cells2
      ∧ cells2 ≠ []
      ∧ cells2.length = cells.length + if eatsFruit delta keys g then 1 else 0 := by
  obtain ⟨c, cs, rfl⟩ := List.exists_cons_of_ne_nil hne
  obtain ⟨g2, hup, h⟩ := updateGame_summary delta keys rand true hs (Or.inl rfl)
  have he := eatsFruit_eq delta keys hs
  rcases h with ⟨hne, hsn, _⟩ | ⟨_, hne, hsn, _⟩ | ⟨ht, hf, hsn, _⟩
  · have : eatsFruit delta keys g = false := by
      rw [← Bool.not_eq_true, he]
      exact fun h => hne h.1
    exact ⟨g2, _, hup, hsn, by simp, by simp [this]⟩
  · have : eatsFruit delta keys g = false := by
      rw [← Bool.not_eq_true, he]
      exact fun h => hne h.2
    refine ⟨g2, _, hup, hsn, by simp, ?_⟩
    simp [this]
  · have : eatsFruit delta keys g = true := he.mpr ⟨ht, hf⟩
    exact ⟨g2, _, hup, hsn, by simp, by simp [this]⟩

/-- On a state whose snake is a chain, `ResetGame` returns. Afterwards the status is `RESET`,
score and timer are zero, direction and input buffer are the zero vector, and the snake is
the one cell drawn first (or empty when the allocation fails). -/
theorem resetGame_summary {g0 : Game} {cells0 : List Vector2} (rand : Nat → Nat × Nat)
    (allocOk : Bool) (hs0 : g0.snake = some cells0) :
    ∃ g, ResetGame rand allocOk g0 = some g ∧ g.gameStatus = GameStatus.RESET ∧ g.score = 0
      ∧ g.snakeMoveTimer = 0 ∧ g.snakeDirection = Vector2Zero ∧ g.inputBuffer = Vector2Zero
      ∧ g.snake = some (if allocOk then [GetRandomTilePos (rand 0)] else []) := by
  obtain ⟨l0, hc0, _⟩ := snake_eq_some_iff.mp hs0
  obtain ⟨h1, hdel, _⟩ := delete_chain hc0
  cases allocOk with
  | true =>
    have hc1 : Chain ({ g0 with
        heap := h1 ++ [some ⟨none, GetRandomTilePos (rand 0)⟩]
        snakeHead := some h1.length } : Game).heap
        ({ g0 with
        heap := h1 ++ [some ⟨none, GetRandomTilePos (rand 0)⟩]
        snakeHead := some h1.length } : Game).snakeHead
        [(h1.length, GetRandomTilePos (rand 0))] :=
      ⟨rfl, none, load_append_length h1 _, rfl⟩
    obtain ⟨placed, fruit, k, hpf⟩ := placeFruit_returns (fun k => rand (k + 1)) hc1
    dsimp only at hpf
    refine ⟨{ g0 with
        heap := h1 ++ [some ⟨none, GetRandomTilePos (rand 0)⟩]
        snakeHead := some h1.length
        fruitPos := fruit
        inputBuffer := Vector2Zero
        snakeDirection := Vector2Zero
        gameStatus := GameStatus.RESET
        score := 0
        snakeMoveTimer := 0 }, ?_, rfl, rfl, rfl, rfl, rfl, ?_⟩
    · unfold ResetGame
      simp only [hdel, Option.bind_eq_bind, Option.some_bind, newSnakeNode_ok, hpf]
    · exact snake_eq_some_iff.mpr ⟨_, hc1, rfl⟩
  | false =>
    have hc1 : Chain ({ g0 with heap := h1, snakeHead := none } : Game).heap
        ({ g0 with heap := h1, snakeHead := none } : Game).snakeHead [] := rfl
    obtain ⟨placed, fruit, k, hpf⟩ := placeFruit_returns (fun k => rand (k + 1)) hc1
    dsimp only at hpf
    refine ⟨{ g0 with
        heap := h1
        snakeHead := none
        fruitPos := fruit
        inputBuffer := Vector2Zero
        snakeDirection := Vector2Zero
        gameStatus := GameStatus.RESET
        score := 0
        snakeMoveTimer := 0 }, ?_, rfl, rfl, rfl, rfl, rfl, ?_⟩
    · unfold ResetGame
      simp only [hdel, Option.bind_eq_bind, Option.some_bind, newSnakeNode_fail, hpf]
    · exact snake_eq_some_iff.mpr ⟨[], hc1, rfl⟩

/-- A call that does not end in `LOST` keeps the cells of the snake pairwise distinct. -/
theorem updateGame_nodup {g g2 : Game} {cells : List Vector2} (delta : ℚ) (keys : Keys)
    (rand : Nat → Nat × Nat) (allocOk : Bool) (hs : g.snake = some cells)
    (hup : UpdateGame delta keys rand allocOk g = some g2) :
    ∃ cells2, g2.snake = some cells2
      ∧ (cells.Nodup → g2.gameStatus ≠ GameStatus.LOST → cells2.Nodup) := by
  obtain ⟨c, cs, rfl, hal⟩ := updateGame_returns_inv delta keys rand allocOk hs hup
  obtain ⟨g3, hup3, h⟩ := updateGame_summary delta keys rand allocOk hs hal
  rw [hup] at hup3
  obtain rfl := Option.some.inj hup3
  rcases h with ⟨_, hsn, _⟩ | ⟨_, _, hsn, _, _, hst⟩ | ⟨_, _, hsn, _, placed, k, _, hst⟩
  · exact ⟨_, hsn, fun hnd _ => hnd⟩
  · refine ⟨_, hsn, fun hnd hnl => ?_⟩
    rw [hst] at hnl
    split_ifs at hnl with hok
    · exact List.nodup_cons.mpr ⟨hok.2, hnd.sublist (List.dropLast_sublist _)⟩
    · exact absurd rfl hnl
  · refine ⟨_, hsn, fun hnd hnl => ?_⟩
    rw [hst] at hnl
    split_ifs at hnl with hok
    · exact List.nodup_cons.mpr ⟨hok.2, hnd⟩
    · exact List.nodup_cons.mpr ⟨hok.2, hnd⟩
    · exact absurd rfl hnl

/-- Every state of the main loop has a snake that is a chain, with pairwise distinct cells
unless the game is lost. -/
theorem reachable_nodup {g : Game} (hr : Reachable g) :
    ∃ cells, g.snake = some cells ∧ (g.gameStatus ≠ GameStatus.LOST → cells.Nodup) := by
  induction hr with
  | start rand allocOk g hreset =>
    have hs0 : initialGame.snake = some [] := rfl
    obtain ⟨g1, hr1, _, _, _, _, _, hsn⟩ := resetGame_summary rand allocOk hs0
    rw [hreset] at hr1
    obtain rfl := Option.some.inj hr1
    refine ⟨_, hsn, fun _ => ?_⟩
    cases allocOk <;> simp
  | step f g g2 _ hstep ih =>
    obtain ⟨cells, hs, hnd⟩ := ih
    have hreset : ∀ g3, ResetGame f.rand f.allocOk g = some g3 →
        ∃ cells3, g3.snake = some cells3
          ∧ (g3.gameStatus ≠ GameStatus.LOST → cells3.Nodup) := by
      intro g3 h3
      obtain ⟨g1, hr1, _, _, _, _, _, hsn⟩ := resetGame_summary f.rand f.allocOk hs
      rw [h3] at hr1
      obtain rfl := Option.some.inj hr1
      refine ⟨_, hsn, fun _ => ?_⟩
      cases f.allocOk <;> simp
    unfold mainStep at hstep
    cases hst : g.gameStatus with
    | PLAYING =>
      rw [hst] at hstep
      obtain ⟨cells2, hs2, hnd2⟩ := updateGame_nodup f.delta f.keys f.rand f.allocOk hs hstep
      exact ⟨cells2, hs2, hnd2 (hnd (by simp [hst]))⟩
    | WON =>
      rw [hst] at hstep
      simp only at hstep
      split_ifs at hstep
      · exact hreset g2 hstep
      · obtain rfl := Option.some.inj hstep
        exact ⟨cells, hs, hnd⟩
    | LOST =>
      rw [hst] at hstep
      simp only at hstep
      split_ifs at hstep
      · exact hreset g2 hstep
      · obtain rfl := Option.some.inj hstep
        exact ⟨cells, hs, hnd⟩
    | RESET =>
      rw [hst] at hstep
      simp only at hstep
      by_cases hin : (!Vector2Equals (GetInputDirection f.keys) Vector2Zero) = true
      · rw [if_pos hin] at hstep
        obtain rfl := Option.some.inj hstep
        exact ⟨cells, hs, fun _ => hnd (by simp [hst])⟩
      · rw [if_neg hin] at hstep
        obtain rfl := Option.some.inj hstep
        exact ⟨cells, hs, hnd⟩

theorem not_inBoard_iff (c : Vector2) :
    ¬ inBoard c ↔ c.x < 0 ∨ c.y < 0 ∨ c.x > boardWidth - 1 ∨ c.y > boardHeight - 1 := by
  unfold inBoard
  omega

theorem placeFlag_of_map {r : Option (Bool × Game × Nat)} {placed : Bool} {fruit : Vector2}
    {k : Nat} (h : r.map (fun r => (r.1, r.2.1.fruitPos, r.2.2)) = some (placed, fruit, k)) :
    r.map Prod.fst = some placed := by
  cases r with
  | none => simp at h
  | some v =>
    simp only [Option.map_some', Option.some.injEq, Prod.mk.injEq] at h ⊢
    exact h.1

theorem elapsed_gameOf (cells : List Vector2) (dir fruit : Vector2) :
    elapsed 0 (gameOf cells dir fruit) := by
  simp [elapsed, gameOf]

theorem chain_chainOf : ∀ cells : List Vector2,
    ∃ l, Chain (chainOf cells).1 (chainOf cells).2 l ∧ l.map Prod.snd = cells
  | [] => ⟨[], rfl, rfl⟩
  | c :: cs => by
    obtain ⟨l, hc, hmap⟩ := chain_chainOf cs
    refine ⟨((chainOf cs).1.length, c) :: l, ?_, by simp [hmap]⟩
    exact ⟨rfl, (chainOf cs).2, load_append_length _ _, Chain.frame_append _ hc⟩

theorem snake_gameOf (cells : List Vector2) (dir fruit : Vector2) :
    (gameOf cells dir fruit).snake = some cells :=
  snake_eq_some_iff.mpr (chain_chainOf cells)

theorem mem_boardRow (y : Nat) (c : Vector2) :
    c ∈ boardRow y ↔ c.y = y ∧ 0 ≤ c.x ∧ c.x < 20 := by
  obtain ⟨cx, cy⟩ := c
  unfold boardRow
  split_ifs <;>
    simp only [List.mem_reverse, List.mem_map, List.mem_range, Vector2.mk.injEq] <;>
  · constructor
    · rintro ⟨x, hx, h1, h2⟩
      simp only [Int.ofNat_eq_coe] at h1 h2
      exact ⟨h2.symm, by omega, by omega⟩
    · rintro ⟨h2, h0, h1⟩
      exact ⟨cx.toNat, by omega, by simp only [Int.ofNat_eq_coe]; omega, h2.symm⟩

theorem nodup_boardRow (y : Nat) : (boardRow y).Nodup := by
  have hinj : Function.Injective fun (x : Nat) => (⟨Int.ofNat x, Int.ofNat y⟩ : Vector2) := by
    intro a b hab
    simp only [Vector2.mk.injEq, Int.ofNat_eq_coe, Nat.cast_inj, and_true] at hab
    exact hab
  unfold boardRow
  split_ifs
  · exact (List.nodup_range 20).map hinj
  · exact List.nodup_reverse.mpr ((List.nodup_range 20).map hinj)

set_option maxRecDepth 100000 in
theorem fullBoard_cons : (List.range 20).flatMap boardRow = ⟨0, 0⟩ :: fullBoardBody := by
  decide

theorem nodup_fullBoardBody : fullBoardBody.Nodup := by
  have hall : ((List.range 20).flatMap boardRow).Nodup := by
    rw [List.nodup_flatMap]
    refine ⟨fun y _ => nodup_boardRow y, ?_⟩
    refine (List.nodup_range 20).imp ?_
    intro a b hab
    simp only [Function.onFun]
    rw [List.disjoint_left]
    intro c hca hcb
    rw [mem_boardRow] at hca hcb
    exact hab (by omega)
  rw [fullBoard_cons] at hall
  exact hall.of_cons

theorem mem_fullBoardBody (c : Vector2) (hb : inBoard c) (hne : c ≠ ⟨0, 0⟩) :
    c ∈ fullBoardBody := by
  have hfull : c ∈ (List.range 20).flatMap boardRow := by
    rw [List.mem_flatMap]
    unfold inBoard boardWidth boardHeight at hb
    exact ⟨c.y.toNat, List.mem_range.mpr (by omega),
      (mem_boardRow _ _).mpr ⟨by omega, by omega, by omega⟩⟩
  rw [fullBoard_cons] at hfull
  rcases List.mem_cons.mp hfull with h | h
  · exact absurd h hne
  · exact h

theorem timed_eq (delta : ℚ) (keys : Keys) (g : Game) :
    timed delta keys g
      = { g with
          snakeMoveTimer := g.snakeMoveTimer - delta
          inputBuffer := (bufferInput keys g).inputBuffer } := by
  simp only [timed, bufferInput]
  split_ifs <;> rfl

theorem turned_inputBuffer (delta : ℚ) (keys : Keys) (g : Game) :
    (turned delta keys g).inputBuffer = (takeDirection (bufferInput keys g)).inputBuffer := by
  unfold turned takeDirection
  rw [timed_eq]
  simp only
  split_ifs <;> rfl

/-- The direction, the input buffer and the timer after a call of `UpdateGame` on the body
`c :: cs`. -/
theorem updateGame_motion {g : Game} {c : Vector2} {cs : List Vector2}
    (delta : ℚ) (keys : Keys) (rand : Nat → Nat × Nat) (allocOk : Bool)
    (hs : g.snake = some (c :: cs))
    (hal : allocOk = true ∨ ¬ (elapsed delta g ∧ prospectiveHead keys g c = g.fruitPos)) :
    ∃ g2, UpdateGame delta keys rand allocOk g = some g2
      ∧ (¬ elapsed delta g →
          g2 = { g with
              snakeMoveTimer := g.snakeMoveTimer - delta
              inputBuffer := (bufferInput keys g).inputBuffer
              gameStatus := g2.gameStatus })
      ∧ (elapsed delta g →
          g2.snakeDirection = activeDirection keys g
            ∧ g2.inputBuffer = (takeDirection (bufferInput keys g)).inputBuffer
            ∧ g2.snakeMoveTimer = g.snakeMoveTimer - delta + snakeMoveTimerStart) := by
  obtain ⟨l0, hc, hmap⟩ := snake_eq_some_iff.mp hs
  obtain ⟨⟨a, c0⟩, l, rfl⟩ : ∃ z l, l0 = z :: l := by
    cases l0 with
    | nil => simp at hmap
    | cons z l => exact ⟨z, l, rfl⟩
  simp only [List.map_cons, List.cons.injEq] at hmap
  obtain ⟨hc0, hcs⟩ := hmap
  subst hc0 hcs
  obtain ⟨_, _, _, _, _, _, k7⟩ := turned_fields delta keys g
  have k8 := turned_inputBuffer delta keys g
  by_cases ht : elapsed delta g
  · by_cases hf : prospectiveHead keys g c0 = g.fruitPos
    · have hok : allocOk = true := by
        rcases hal with hal | hal
        · exact hal
        · exact absurd ⟨ht, hf⟩ hal
      subst hok
      obtain ⟨placed, fruit, k, _, _, hup⟩ := updateGame_grow delta keys rand hc ht hf
      exact ⟨_, hup, fun hn => absurd ht hn, fun _ => ⟨k7, k8, rfl⟩⟩
    · obtain ⟨h2, a2, l2, _, _, _, hup⟩ := updateGame_shift delta keys rand allocOk hc ht hf
      exact ⟨_, hup, fun hn => absurd ht hn, fun _ => ⟨k7, k8, rfl⟩⟩
  · have hup := updateGame_wait delta keys rand allocOk hc ht
    refine ⟨_, hup, fun _ => ?_, fun h => absurd h ht⟩
    rw [timed_eq]

theorem updateGame_congr_buffer (delta : ℚ) (keys keys0 : Keys) (rand : Nat → Nat × Nat)
    (allocOk : Bool) (g : Game) (h : bufferInput keys g = bufferInput keys0 g) :
    UpdateGame delta keys rand allocOk g = UpdateGame delta keys0 rand allocOk g := by
  rw [updateGame_unfold, updateGame_unfold]
  simp only [turned, timed, h]

theorem bufferInput_of_zero {keys : Keys} (g : Game)
    (h0 : GetInputDirection keys = Vector2Zero) : bufferInput keys g = g := by
  simp [bufferInput, h0, Vector2Zero, Vector2Equals]

theorem bufferInput_parallel {keys : Keys} (g : Game)
    (hin : GetInputDirection keys = Vector2Negate g.snakeDirection
      ∨ GetInputDirection keys = g.snakeDirection) : bufferInput keys g = g := by
  have hx : (if (GetInputDirection keys).x ≠ 0 ∧ g.snakeDirection.x ≠ 0 then 0
      else (GetInputDirection keys).x) = 0 := by
    split_ifs with h
    · rfl
    · rcases hin with hin | hin <;> rw [hin] at h ⊢ <;>
        simp only [Vector2Negate, ne_eq, neg_eq_zero, and_self, not_not] at h ⊢ <;> omega
  have hy : (if (GetInputDirection keys).y ≠ 0 ∧ g.snakeDirection.y ≠ 0 then 0
      else (GetInputDirection keys).y) = 0 := by
    split_ifs with h
    · rfl
    · rcases hin with hin | hin <;> rw [hin] at h ⊢ <;>
        simp only [Vector2Negate, ne_eq, neg_eq_zero, and_self, not_not] at h ⊢ <;> omega
  simp only [bufferInput, hx, hy]
  rfl

/-! ## Invariants of the main loop -/

/-- A property holds in every state of the main loop when `ResetGame` establishes it, and
`UpdateGame` and the start of the game from the `RESET` status preserve it. Changing only the input
buffer and the status is all that the start of the game does. -/
theorem reachable_induction {P : Game → Prop}
    (hreset : ∀ (rand : Nat → Nat × Nat) (allocOk : Bool) (g0 g : Game)
      (cells0 : List Vector2), g0.snake = some cells0 →
      ResetGame rand allocOk g0 = some g → P g)
    (hupdate : ∀ (f : Frame) (g g2 : Game), Reachable g → P g →
      g.gameStatus = GameStatus.PLAYING →
      UpdateGame f.delta f.keys f.rand f.allocOk g = some g2 → P g2)
    (hstart : ∀ (g : Game) (d : Vector2), P g → g.gameStatus = GameStatus.RESET →
      P { g with inputBuffer := d, gameStatus := GameStatus.PLAYING })
    {g : Game} (hr : Reachable g) : P g := by
  induction hr with
  | start rand allocOk g hres => exact hreset rand allocOk initialGame g [] rfl hres
  | step f g g2 hrg hstep ih =>
    obtain ⟨cells, hs, _⟩ := reachable_nodup hrg
    unfold mainStep at hstep
    cases hst : g.gameStatus with
    | PLAYING =>
      rw [hst] at hstep
      exact hupdate f g g2 hrg ih hst hstep
    | WON =>
      rw [hst] at hstep
      simp only at hstep
      split_ifs at hstep
      · exact hreset _ _ g g2 cells hs hstep
      · obtain rfl := Option.some.inj hstep
        exact ih
    | LOST =>
      rw [hst] at hstep
      simp only at hstep
      split_ifs at hstep
      · exact hreset _ _ g g2 cells hs hstep
      · obtain rfl := Option.some.inj hstep
        exact ih
    | RESET =>
      rw [hst] at hstep
      simp only at hstep
      by_cases hin : (!Vector2Equals (GetInputDirection f.keys) Vector2Zero) = true
      · rw [if_pos hin] at hstep
        obtain rfl := Option.some.inj hstep
        exact hstart g _ ih hst
      · rw [if_neg hin] at hstep
        obtain rfl := Option.some.inj hstep
        exact ih

theorem takeDirection_cases (s : Game) :
    ((takeDirection s).snakeDirection = s.inputBuffer
        ∧ (takeDirection s).inputBuffer = Vector2Zero)
      ∨ ((takeDirection s).snakeDirection = s.snakeDirection
        ∧ (takeDirection s).inputBuffer = Vector2Zero ∧ s.inputBuffer = Vector2Zero) := by
  by_cases h : Vector2Equals s.inputBuffer Vector2Zero = true
  · have h2 := (Vector2Equals_iff _ _).mp h
    have ht : takeDirection s = s := by simp [takeDirection, h]
    rw [ht]
    exact Or.inr ⟨rfl, h2, h2⟩
  · simp only [Bool.not_eq_true] at h
    have ht : takeDirection s
        = { s with snakeDirection := s.inputBuffer, inputBuffer := Vector2Zero } := by
      simp [takeDirection, h]
    rw [ht]
    exact Or.inl ⟨rfl, rfl⟩

/-- What lines 129 to 134 leave in the input buffer has no component along an axis of
movement, provided the buffer had none before. -/
theorem bufferInput_filtered (keys : Keys) (g : Game)
    (hx : g.snakeDirection.x ≠ 0 → g.inputBuffer.x = 0)
    (hy : g.snakeDirection.y ≠ 0 → g.inputBuffer.y = 0) :
    (bufferInput keys g).snakeDirection = g.snakeDirection
      ∧ (g.snakeDirection.x ≠ 0 → (bufferInput keys g).inputBuffer.x = 0)
      ∧ (g.snakeDirection.y ≠ 0 → (bufferInput keys g).inputBuffer.y = 0) := by
  simp only [bufferInput]
  split_ifs <;> simp_all <;> tauto

/-- The direction and the buffer after a call, for a state whose buffer has no component
along an axis of movement: the buffer keeps that property, and a changed direction has no
component along an axis of the old one. -/
theorem updateGame_direction {g g2 : Game} {cells : List Vector2} (delta : ℚ) (keys : Keys)
    (rand : Nat → Nat × Nat) (allocOk : Bool) (hs : g.snake = some cells)
    (hx : g.snakeDirection.x ≠ 0 → g.inputBuffer.x = 0)
    (hy : g.snakeDirection.y ≠ 0 → g.inputBuffer.y = 0)
    (hup : UpdateGame delta keys rand allocOk g = some g2) :
    ((g2.snakeDirection.x ≠ 0 → g2.inputBuffer.x = 0)
        ∧ (g2.snakeDirection.y ≠ 0 → g2.inputBuffer.y = 0))
      ∧ (g2.snakeDirection = g.snakeDirection
        ∨ ((g.snakeDirection.x ≠ 0 → g2.snakeDirection.x = 0)
          ∧ (g.snakeDirection.y ≠ 0 → g2.snakeDirection.y = 0))) := by
  obtain ⟨c, cs, rfl, hal⟩ := updateGame_returns_inv delta keys rand allocOk hs hup
  obtain ⟨g3, hup3, hw, he⟩ := updateGame_motion delta keys rand allocOk hs hal
  rw [hup] at hup3
  obtain rfl := Option.some.inj hup3
  obtain ⟨hbd, hbx, hby⟩ := bufferInput_filtered keys g hx hy
  by_cases ht : elapsed delta g
  · obtain ⟨hdir, hbuf, _⟩ := he ht
    rw [hdir, hbuf, activeDirection]
    rcases takeDirection_cases (bufferInput keys g) with ⟨h1, h2⟩ | ⟨h1, h2, _⟩
    · rw [h1, h2]
      exact ⟨⟨fun _ => rfl, fun _ => rfl⟩, Or.inr ⟨hbx, hby⟩⟩
    · rw [h1, h2, hbd]
      exact ⟨⟨fun _ => rfl, fun _ => rfl⟩, Or.inl rfl⟩
  · have heq := hw ht
    have hd : g2.snakeDirection = g.snakeDirection := by rw [heq]
    have hb : g2.inputBuffer = (bufferInput keys g).inputBuffer := by rw [heq]
    rw [hd, hb]
    exact ⟨⟨hbx, hby⟩, Or.inl rfl⟩

/-- The status after a call is the old status, `LOST` or `WON`. -/
theorem updateGame_status_cases {g g2 : Game} {cells : List Vector2} (delta : ℚ)
    (keys : Keys) (rand : Nat → Nat × Nat) (allocOk : Bool) (hs : g.snake = some cells)
    (hup : UpdateGame delta keys rand allocOk g = some g2) :
    g2.gameStatus = g.gameStatus ∨ g2.gameStatus = GameStatus.LOST
      ∨ g2.gameStatus = GameStatus.WON := by
  obtain ⟨c, cs, rfl, hal⟩ := updateGame_returns_inv delta keys rand allocOk hs hup
  obtain ⟨g3, hup3, h⟩ := updateGame_summary delta keys rand allocOk hs hal
  rw [hup] at hup3
  obtain rfl := Option.some.inj hup3
  rcases h with ⟨_, _, _, _, hst⟩ | ⟨_, _, _, _, _, hst⟩ | ⟨_, _, _, _, placed, _, _, hst⟩
  · rw [hst]
    split_ifs <;> simp
  · rw [hst]
    split_ifs <;> simp
  · rw [hst]
    cases placed <;> split_ifs <;> simp

/-- In every state of the main loop the input buffer has no component along an axis of
movement, and in the `RESET` status the direction of movement is zero. -/
theorem reachable_buffer {g : Game} (hr : Reachable g) :
    (g.gameStatus = GameStatus.RESET → g.snakeDirection = Vector2Zero)
      ∧ (g.snakeDirection.x ≠ 0 → g.inputBuffer.x = 0)
      ∧ (g.snakeDirection.y ≠ 0 → g.inputBuffer.y = 0) := by
  refine reachable_induction
    (P := fun g => (g.gameStatus = GameStatus.RESET → g.snakeDirection = Vector2Zero)
      ∧ (g.snakeDirection.x ≠ 0 → g.inputBuffer.x = 0)
      ∧ (g.snakeDirection.y ≠ 0 → g.inputBuffer.y = 0)) ?_ ?_ ?_ hr
  · intro rand allocOk g0 g cells0 hs0 hres
    obtain ⟨g1, hr1, _, _, _, hd, hb, _⟩ := resetGame_summary rand allocOk hs0
    rw [hres] at hr1
    obtain rfl := Option.some.inj hr1
    rw [hb]
    exact ⟨fun _ => hd, fun _ => rfl, fun _ => rfl⟩
  · intro f g g2 hrg ih hst hup
    obtain ⟨cells, hs, _⟩ := reachable_nodup hrg
    have hdir := (updateGame_direction f.delta f.keys f.rand f.allocOk hs
      ih.2.1 ih.2.2 hup).1
    refine ⟨fun h2 => ?_, hdir.1, hdir.2⟩
    rcases updateGame_status_cases f.delta f.keys f.rand f.allocOk hs hup with h | h | h
    · rw [h, hst] at h2
      cases h2
    · rw [h] at h2
      cases h2
    · rw [h] at h2
      cases h2
  · intro g d ih hst
    have hz := ih.1 hst
    refine ⟨fun h2 => ?_, fun h2 => ?_, fun h2 => ?_⟩
    · cases h2
    · exact absurd (show g.snakeDirection.x = 0 by rw [hz]; rfl) h2
    · exact absurd (show g.snakeDirection.y = 0 by rw [hz]; rfl) h2

theorem reachable_freshGame : Reachable freshGame :=
  Reachable.start openingDraws true freshGame (by decide!)

theorem reachable_startedGame : Reachable startedGame :=
  Reachable.step ⟨0, rightKey, true, openingDraws, true⟩ freshGame startedGame
    reachable_freshGame (by decide!)

theorem reachable_movedGame : Reachable movedGame :=
  Reachable.step ⟨0, noKeys, false, openingDraws, true⟩ startedGame movedGame
    reachable_startedGame (by decide!)

theorem reachable_diagonalGame : Reachable diagonalGame :=
  Reachable.step ⟨0, rightDownKeys, true, openingDraws, true⟩ startedGame diagonalGame
    reachable_startedGame (by decide!)

/-- One call on a non-empty body changes the score and the length by the same amount: one
if the call eats, nothing if it does not. -/
theorem updateGame_score {g : Game} {c : Vector2} {cs : List Vector2} (delta : ℚ)
    (keys : Keys) (rand : Nat → Nat × Nat) (allocOk : Bool) (hs : g.snake = some (c :: cs))
    (hal : allocOk = true ∨ ¬ (elapsed delta g ∧ prospectiveHead keys g c = g.fruitPos)) :
    ∃ g2 cells2, UpdateGame delta keys rand allocOk g = some g2 ∧ g2.snake = some cells2
      ∧ cells2 ≠ []
      ∧ (cells2.length : Int) - g2.score = ((c :: cs).length : Int) - g.score
      ∧ g2.score = g.score + if eatsFruit delta keys g then 1 else 0 := by
  obtain ⟨g2, hup, h⟩ := updateGame_summary delta keys rand allocOk hs hal
  have he := eatsFruit_eq delta keys hs
  rcases h with ⟨hne, hsn, hsc, _⟩ | ⟨_, hne, hsn, hsc, _⟩ | ⟨ht, hf, hsn, hsc, _⟩
  · have hno : eatsFruit delta keys g = false := by
      rw [← Bool.not_eq_true, he]
      exact fun h => hne h.1
    exact ⟨g2, _, hup, hsn, by simp, by rw [hsc], by simp [hno, hsc]⟩
  · have hno : eatsFruit delta keys g = false := by
      rw [← Bool.not_eq_true, he]
      exact fun h => hne h.2
    refine ⟨g2, _, hup, hsn, by simp, ?_, by simp [hno, hsc]⟩
    rw [hsc]
    simp
  · have hyes : eatsFruit delta keys g = true := he.mpr ⟨ht, hf⟩
    refine ⟨g2, _, hup, hsn, by simp, ?_, by simp [hyes, hsc]⟩
    rw [hsc]
    simp only [List.length_cons]
    push_cast
    ring

/-- With successful allocations one iteration of the main loop returns and keeps the snake
non-empty and one cell longer than the score. -/
theorem mainStep_score {g : Game} {cells : List Vector2} (f : Frame)
    (hs : g.snake = some cells) (hne : cells ≠ [])
    (hlen : (cells.length : Int) = g.score + 1) (hal : f.allocOk = true) :
    ∃ g2 cells2, mainStep f g = some g2 ∧ g2.snake = some cells2 ∧ cells2 ≠ []
      ∧ (cells2.length : Int) = g2.score + 1 := by
  have hreset : ∃ g2 cells2, ResetGame f.rand f.allocOk g = some g2
      ∧ g2.snake = some cells2 ∧ cells2 ≠ [] ∧ (cells2.length : Int) = g2.score + 1 := by
    obtain ⟨g1, hr1, _, hsc, _, _, _, hsn⟩ := resetGame_summary f.rand f.allocOk hs
    rw [hal] at hsn
    exact ⟨g1, _, hr1, hsn, by simp, by simp [hsc]⟩
  unfold mainStep
  cases hst : g.gameStatus with
  | PLAYING =>
    obtain ⟨c, cs, rfl⟩ := List.exists_cons_of_ne_nil hne
    obtain ⟨g2, cells2, hup, hs2, hne2, hdiff, _⟩ :=
      updateGame_score f.delta f.keys f.rand f.allocOk hs (Or.inl hal)
    exact ⟨g2, cells2, hup, hs2, hne2, by omega⟩
  | WON =>
    simp only
    split_ifs
    · exact hreset
    · exact ⟨g, cells, rfl, hs, hne, hlen⟩
  | LOST =>
    simp only
    split_ifs
    · exact hreset
    · exact ⟨g, cells, rfl, hs, hne, hlen⟩
  | RESET =>
    simp only
    by_cases hin : (!Vector2Equals (GetInputDirection f.keys) Vector2Zero) = true
    · rw [if_pos hin]
      exact ⟨_, cells, rfl, hs, hne, hlen⟩
    · rw [if_neg hin]
      exact ⟨g, cells, rfl, hs, hne, hlen⟩

theorem runMain_score : ∀ (fs : List Frame) {g : Game} {cells : List Vector2},
    g.snake = some cells → cells ≠ [] → (cells.length : Int) = g.score + 1 →
    (∀ f ∈ fs, f.allocOk = true) →
    ∃ g2 cells2, runMain fs g = some g2 ∧ g2.snake = some cells2 ∧ cells2 ≠ []
      ∧ (cells2.length : Int) = g2.score + 1
  | [], g, cells, hs, hne, hlen, _ => ⟨g, cells, rfl, hs, hne, hlen⟩
  | f :: fs, g, cells, hs, hne, hlen, hal => by
    obtain ⟨g1, cells1, hstep, hs1, hne1, hlen1⟩ :=
      mainStep_score f hs hne hlen (hal f (List.mem_cons_self f fs))
    obtain ⟨g2, cells2, hrun, h2⟩ := runMain_score fs hs1 hne1 hlen1
      (fun f2 hf2 => hal f2 (List.mem_cons_of_mem f hf2))
    refine ⟨g2, cells2, ?_, h2⟩
    simp only [runMain, hstep, Option.some_bind, hrun]

theorem runUpdates_score : ∀ (fs : List Frame) {g : Game} {cells : List Vector2},
    g.snake = some cells → cells ≠ [] → (cells.length : Int) = g.score + 1 →
    (∀ f ∈ fs, f.allocOk = true) →
    ∃ g2 cells2, runUpdates fs g = some g2 ∧ g2.snake = some cells2 ∧ cells2 ≠ []
      ∧ (cells2.length : Int) = g2.score + 1
      ∧ g2.score = g.score + (countEats fs g : Int)
  | [], g, cells, hs, hne, hlen, _ => ⟨g, cells, rfl, hs, hne, hlen, by simp [countEats]⟩
  | f :: fs, g, cells, hs, hne, hlen, hal => by
    have hf : f.allocOk = true := hal f (List.mem_cons_self f fs)
    obtain ⟨c, cs, rfl⟩ := List.exists_cons_of_ne_nil hne
    obtain ⟨g1, cells1, hup, hs1, hne1, hdiff, hsc1⟩ :=
      updateGame_score f.delta f.keys f.rand f.allocOk hs (Or.inl hf)
    obtain ⟨g2, cells2, hrun, hs2, hne2, hlen2, hsc2⟩ := runUpdates_score fs hs1 hne1
      (by omega) (fun f2 hf2 => hal f2 (List.mem_cons_of_mem f hf2))
    refine ⟨g2, cells2, ?_, hs2, hne2, hlen2, ?_⟩
    · simp only [runUpdates, hup, Option.some_bind, hrun]
    · rw [hsc2, hsc1]
      simp only [countEats, hup]
      split_ifs <;> push_cast <;> ring

/-- A call that does not end in `LOST` keeps the cells of the snake on the board. -/
theorem updateGame_board {g g2 : Game} {cells : List Vector2} (delta : ℚ) (keys : Keys)
    (rand : Nat → Nat × Nat) (allocOk : Bool) (hs : g.snake = some cells)
    (hin : ∀ c ∈ cells, inBoard c)
    (hup : UpdateGame delta keys rand allocOk g = some g2)
    (hnl : g2.gameStatus ≠ GameStatus.LOST) :
    ∃ cells2, g2.snake = some cells2 ∧ ∀ c ∈ cells2, inBoard c := by
  obtain ⟨c, cs, rfl, hal⟩ := updateGame_returns_inv delta keys rand allocOk hs hup
  obtain ⟨g3, hup3, h⟩ := updateGame_summary delta keys rand allocOk hs hal
  rw [hup] at hup3
  obtain rfl := Option.some.inj hup3
  rcases h with ⟨_, hsn, _⟩ | ⟨_, _, hsn, _, _, hst⟩ | ⟨_, _, hsn, _, placed, k, _, hst⟩
  · exact ⟨_, hsn, hin⟩
  · refine ⟨_, hsn, ?_⟩
    rw [hst] at hnl
    split_ifs at hnl with hok
    · intro x hx
      rcases List.mem_cons.mp hx with rfl | hx
      · exact hok.1
      · exact hin x ((List.dropLast_sublist _).subset hx)
    · exact absurd rfl hnl
  · refine ⟨_, hsn, ?_⟩
    rw [hst] at hnl
    have hok : inBoard (prospectiveHead keys g c) := by
      by_contra hcon
      rw [if_neg (fun h => hcon h.1)] at hnl
      exact hnl rfl
    intro x hx
    rcases List.mem_cons.mp hx with rfl | hx
    · exact hok
    · exact hin x hx

/-- In every state of the main loop that is not lost the cells of the snake are on the
board. -/
theorem reachable_board {g : Game} (hr : Reachable g) :
    g.gameStatus ≠ GameStatus.LOST → ∃ cells, g.snake = some cells ∧ ∀ c ∈ cells, inBoard c := by
  refine reachable_induction
    (P := fun g => g.gameStatus ≠ GameStatus.LOST →
      ∃ cells, g.snake = some cells ∧ ∀ c ∈ cells, inBoard c) ?_ ?_ ?_ hr
  · intro rand allocOk g0 g cells0 hs0 hres _
    obtain ⟨g1, hr1, _, _, _, _, _, hsn⟩ := resetGame_summary rand allocOk hs0
    rw [hres] at hr1
    obtain rfl := Option.some.inj hr1
    refine ⟨_, hsn, ?_⟩
    cases allocOk
    · simp
    · simpa using getRandomTilePos_inBoard (rand 0)
  · intro f g g2 _ ih hst hup hnl
    obtain ⟨cells, hs, hin⟩ := ih (by rw [hst]; simp)
    exact updateGame_board f.delta f.keys f.rand f.allocOk hs hin hup hnl
  · intro g d ih hst _
    exact ih (by rw [hst]; simp)

/-- In every state of the main loop the snake is one cell longer than the score, or it is
empty, after a failed allocation, and the score is zero. -/
theorem reachable_score {g : Game} (hr : Reachable g) :
    ∃ cells, g.snake = some cells
      ∧ ((cells.length : Int) = g.score + 1 ∨ (cells = [] ∧ g.score = 0)) := by
  refine reachable_induction
    (P := fun g => ∃ cells, g.snake = some cells
      ∧ ((cells.length : Int) = g.score + 1 ∨ (cells = [] ∧ g.score = 0))) ?_ ?_ ?_ hr
  · intro rand allocOk g0 g cells0 hs0 hres
    obtain ⟨g1, hr1, _, hsc, _, _, _, hsn⟩ := resetGame_summary rand allocOk hs0
    rw [hres] at hr1
    obtain rfl := Option.some.inj hr1
    refine ⟨_, hsn, ?_⟩
    cases allocOk
    · exact Or.inr ⟨rfl, hsc⟩
    · exact Or.inl (by simp [hsc])
  · intro f g g2 _ ih _ hup
    obtain ⟨cells, hs, hlen⟩ := ih
    obtain ⟨c, cs, rfl, hal⟩ := updateGame_returns_inv f.delta f.keys f.rand f.allocOk hs hup
    obtain ⟨g3, cells2, hup3, hs2, _, hdiff, _⟩ :=
      updateGame_score f.delta f.keys f.rand f.allocOk hs hal
    rw [hup] at hup3
    obtain rfl := Option.some.inj hup3
    refine ⟨cells2, hs2, Or.inl ?_⟩
    rcases hlen with hlen | ⟨hnil, _⟩
    · omega
    · cases hnil
  · intro g d ih _
    exact ih

/-- Pairwise distinct cells of the board are at most 400. -/
theorem length_le_of_nodup_inBoard {cells : List Vector2} (hnd : cells.Nodup)
    (hin : ∀ c ∈ cells, inBoard c) : cells.length ≤ 400 := by
  have hinj : Function.Injective fun c : Vector2 => (c.x, c.y) := by
    intro a b hab
    cases a
    cases b
    simp only [Prod.mk.injEq] at hab
    simp [hab.1, hab.2]
  have hnd2 := hnd.map hinj
  have hsub : (cells.map fun c : Vector2 => (c.x, c.y)).toFinset
      ⊆ Finset.Icc (0 : Int) 19 ×ˢ Finset.Icc (0 : Int) 19 := by
    intro q hq
    rw [List.mem_toFinset, List.mem_map] at hq
    obtain ⟨c, hc, rfl⟩ := hq
    have hb := hin c hc
    simp only [inBoard, boardWidth, boardHeight] at hb
    simp only [Finset.mem_product, Finset.mem_Icc]
    omega
  have hcard := Finset.card_le_card hsub
  rw [List.toFinset_card_of_nodup hnd2, List.length_map, Finset.card_product,
    Int.card_Icc] at hcard
  simpa using hcard

/-! ## The claims -/

/-- Claim C1: on a non-empty snake body `c :: cs`, `MoveSnakeAndGetHead` with `ateFruit` false
returns, and the body afterwards is the new cell `p` followed by the old cells without the
last one, in their old order; the length is unchanged, and a body of one cell becomes `[p]`. -/
theorem moveSnake_without_growth (h : Heap) (snakeHead : Ptr) (allocOk : Bool)
    (p c : Vector2) (cs : List Vector2)
    (hs : chainCells h h.length snakeHead = some (c :: cs)) :
    ∃ h2 head2, MoveSnakeAndGetHead h snakeHead allocOk p false = some (h2, head2)
      ∧ chainCells h2 h2.length head2 = some (p :: (c :: cs).dropLast)
      ∧ (p :: (c :: cs).dropLast).length = (c :: cs).length
      ∧ (cs = [] → chainCells h2 h2.length head2 = some [p]) := by
  obtain ⟨l, hc, hmap⟩ := chain_of_chainCells hs
  have hne : l ≠ [] := by
    intro hl
    simp [hl] at hmap
  obtain ⟨h2, a, l2, hm, _, hc2, hmap2⟩ := move_shift hc hne allocOk p
  have hcells : chainCells h2 h2.length (some a) = some (p :: (c :: cs).dropLast) := by
    rw [chainCells_of_chain hc2 (Chain.length_le hc2), hmap2, hmap]
  refine ⟨h2, some a, hm, hcells, ?_, ?_⟩
  · simp
  · intro hcs
    rw [hcells, hcs]
    rfl

/-- The instance of claim C1 on the body `[(0,0), (1,0)]` with the new cell `(0,1)`. -/
theorem moveSnake_without_growth_witness :
    chainCells (chainOf [⟨0, 0⟩, ⟨1, 0⟩]).1 (chainOf [⟨0, 0⟩, ⟨1, 0⟩]).1.length
        (chainOf [⟨0, 0⟩, ⟨1, 0⟩]).2 = some [⟨0, 0⟩, ⟨1, 0⟩]
      ∧ ∃ h2 head2,
        MoveSnakeAndGetHead (chainOf [⟨0, 0⟩, ⟨1, 0⟩]).1 (chainOf [⟨0, 0⟩, ⟨1, 0⟩]).2 true
            ⟨0, 1⟩ false = some (h2, head2)
        ∧ chainCells h2 h2.length head2 = some (⟨0, 1⟩ :: [⟨0, 0⟩, ⟨1, 0⟩].dropLast)
        ∧ (⟨0, 1⟩ :: ([⟨0, 0⟩, ⟨1, 0⟩] : List Vector2).dropLast).length
            = ([⟨0, 0⟩, ⟨1, 0⟩] : List Vector2).length
        ∧ (([⟨1, 0⟩] : List Vector2) = [] → chainCells h2 h2.length head2 = some [⟨0, 1⟩]) :=
  ⟨by decide, moveSnake_without_growth _ _ true ⟨0, 1⟩ ⟨0, 0⟩ [⟨1, 0⟩] (by decide)⟩

/-- Claim C10: on a chain of nodes with the cells `cells`, `CheckSnakeNodesForPos` returns, and
returns true exactly when `p` is one of the cells; on the empty chain it returns false; and
when the chain is the body `c :: cs`, the call on the successor of the head tests `cs`. -/
theorem checkSnakeNodesForPos_iff_mem (h : Heap) (p : Vector2) (node : Ptr)
    (cells : List Vector2) (hs : chainCells h h.length node = some cells) :
    (∃ b, CheckSnakeNodesForPos h p node = some b ∧ (b = true ↔ p ∈ cells))
      ∧ CheckSnakeNodesForPos h p none = some false
      ∧ ∀ c cs, cells = c :: cs →
          ∃ a n, node = some a ∧ load h a = some n ∧ n.pos = c
            ∧ chainCells h h.length n.next = some cs
            ∧ ∃ b, CheckSnakeNodesForPos h p n.next = some b ∧ (b = true ↔ p ∈ cs) := by
  obtain ⟨l, hc, hmap⟩ := chain_of_chainCells hs
  subst hmap
  refine ⟨⟨_, check_chain p hc, by simp⟩, ?_, ?_⟩
  · cases hh : h.length <;> simp [CheckSnakeNodesForPos, CheckSnakeNodesForPosAux, hh]
  · intro c cs hcells
    obtain ⟨⟨a, c2⟩, l2, rfl⟩ : ∃ z l2, l = z :: l2 := by
      cases l with
      | nil => simp at hcells
      | cons z l2 => exact ⟨z, l2, rfl⟩
    simp only [List.map_cons, List.cons.injEq] at hcells
    obtain ⟨hc2, hcs⟩ := hcells
    subst hc2 hcs
    obtain ⟨hp, nxt, hl, hcn⟩ := hc
    exact ⟨a, ⟨nxt, c2⟩, hp, hl, rfl, chainCells_of_chain hcn (Chain.length_le hcn),
      _, check_chain p hcn, by simp⟩

/-- The instance of claim C10 on the body `[(0,0), (1,0)]` and the cell `(1,0)`. -/
theorem checkSnakeNodesForPos_iff_mem_witness :
    chainCells (chainOf [⟨0, 0⟩, ⟨1, 0⟩]).1 (chainOf [⟨0, 0⟩, ⟨1, 0⟩]).1.length
        (chainOf [⟨0, 0⟩, ⟨1, 0⟩]).2 = some [⟨0, 0⟩, ⟨1, 0⟩]
      ∧ ∃ b, CheckSnakeNodesForPos (chainOf [⟨0, 0⟩, ⟨1, 0⟩]).1 ⟨1, 0⟩
          (chainOf [⟨0, 0⟩, ⟨1, 0⟩]).2 = some b
        ∧ (b = true ↔ (⟨1, 0⟩ : Vector2) ∈ ([⟨0, 0⟩, ⟨1, 0⟩] : List Vector2)) :=
  ⟨by decide,
    (checkSnakeNodesForPos_iff_mem _ ⟨1, 0⟩ _ [⟨0, 0⟩, ⟨1, 0⟩] (by decide)).1⟩

/-- Claim C8: on every snake body `PlaceFruit` returns after at most 400 draws; it returns true
exactly when one of the first 400 drawn cells is off the snake, the fruit cell then being the
first such cell; when it returns false exactly 400 cells were drawn, which is what happens
whenever the snake covers the whole board. -/
theorem placeFruit_first_free_cell (rand : Nat → Nat × Nat) (g : Game)
    (cells : List Vector2) (hs : g.snake = some cells) :
    maxFruitPlaceAtttempts = 400
      ∧ ∃ placed fruit k, PlaceFruit rand g = some (placed, { g with fruitPos := fruit }, k)
        ∧ k ≤ maxFruitPlaceAtttempts
        ∧ (placed = true ↔
            ∃ j, j < maxFruitPlaceAtttempts ∧ GetRandomTilePos (rand j) ∉ cells)
        ∧ (placed = true →
            ∃ j, k = j + 1 ∧ fruit = GetRandomTilePos (rand j) ∧ fruit ∉ cells
              ∧ ∀ m, m < j → GetRandomTilePos (rand m) ∈ cells)
        ∧ (placed = false → k = maxFruitPlaceAtttempts)
        ∧ ((∀ c, inBoard c → c ∈ cells) → placed = false) := by
  obtain ⟨l, hc, hmap⟩ := snake_eq_some_iff.mp hs
  subst hmap
  refine ⟨rfl, ?_⟩
  rcases placeFruit_cases rand hc with ⟨j, hj, hocc, hfree, hpf⟩ | ⟨hocc, hpf⟩
  · refine ⟨true, _, _, hpf, hj, ?_, ?_, ?_, ?_⟩
    · exact ⟨fun _ => ⟨j, hj, hfree⟩, fun _ => rfl⟩
    · exact fun _ => ⟨j, rfl, rfl, hfree, hocc⟩
    · intro hfalse
      cases hfalse
    · intro hall
      exact absurd (hall _ (getRandomTilePos_inBoard (rand j))) hfree
  · refine ⟨false, _, _, hpf, le_refl _, ?_, ?_, ?_, ?_⟩
    · constructor
      · intro hfalse
        cases hfalse
      · rintro ⟨j, hj, hfree⟩
        exact absurd (hocc j hj) hfree
    · intro hfalse
      cases hfalse
    · exact fun _ => rfl
    · exact fun _ => rfl

/-- The instance of claim C8 on the one-cell snake at `(0,0)` with a generator that draws
`(0,0)` first and then `(1,0)`. -/
theorem placeFruit_first_free_cell_witness :
    (gameOf [⟨0, 0⟩] ⟨1, 0⟩ ⟨5, 5⟩).snake = some [⟨0, 0⟩]
      ∧ ∃ placed fruit k,
        PlaceFruit countingDraws (gameOf [⟨0, 0⟩] ⟨1, 0⟩ ⟨5, 5⟩)
            = some (placed, { gameOf [⟨0, 0⟩] ⟨1, 0⟩ ⟨5, 5⟩ with fruitPos := fruit }, k)
          ∧ k ≤ maxFruitPlaceAtttempts
          ∧ (placed = true ↔ ∃ j, j < maxFruitPlaceAtttempts
              ∧ GetRandomTilePos (countingDraws j) ∉ ([⟨0, 0⟩] : List Vector2))
          ∧ (placed = true →
              ∃ j, k = j + 1 ∧ fruit = GetRandomTilePos (countingDraws j)
                ∧ fruit ∉ ([⟨0, 0⟩] : List Vector2)
                ∧ ∀ m, m < j →
                  GetRandomTilePos (countingDraws m) ∈ ([⟨0, 0⟩] : List Vector2))
          ∧ (placed = false → k = maxFruitPlaceAtttempts)
          ∧ ((∀ c, inBoard c → c ∈ ([⟨0, 0⟩] : List Vector2)) → placed = false) :=
  ⟨by decide,
    (placeFruit_first_free_cell countingDraws (gameOf [⟨0, 0⟩] ⟨1, 0⟩ ⟨5, 5⟩)
      [⟨0, 0⟩] (by decide)).2⟩

/-- Claim C9 as stated fails: the one-cell snake at `(0,0)` leaves 399 cells of the board free,
the generator only produces cells of the board, and yet `PlaceFruit` returns false when every
draw is the cell `(0,0)`. -/
theorem placeFruit_fails_with_free_cells :
    (gameOf [⟨0, 0⟩] ⟨1, 0⟩ ⟨5, 5⟩).snake = some [⟨0, 0⟩]
      ∧ (inBoard ⟨1, 0⟩ ∧ (⟨1, 0⟩ : Vector2) ∉ ([⟨0, 0⟩] : List Vector2))
      ∧ (∀ j : Nat, inBoard (GetRandomTilePos (stuckDraws j)))
      ∧ (PlaceFruit stuckDraws (gameOf [⟨0, 0⟩] ⟨1, 0⟩ ⟨5, 5⟩)).map Prod.fst
          = some false := by
  have hs : (gameOf [⟨0, 0⟩] ⟨1, 0⟩ ⟨5, 5⟩).snake = some [⟨0, 0⟩] := by decide
  refine ⟨hs, by decide, fun j => getRandomTilePos_inBoard _, ?_⟩
  obtain ⟨l, hc, hmap⟩ := snake_eq_some_iff.mp hs
  have hocc : ∀ m, m < maxFruitPlaceAtttempts →
      GetRandomTilePos (stuckDraws m) ∈ l.map Prod.snd := by
    intro m _
    rw [hmap]
    show GetRandomTilePos ((0 : Nat), (0 : Nat)) ∈ ([⟨0, 0⟩] : List Vector2)
    decide
  rw [placeFruit_full _ hc hocc]
  rfl

/-- Claim C9, amended: on every snake body and for every sequence of draws `PlaceFruit` returns
within the cap of 400 draws, and it returns true, with a fruit cell off the snake, whenever
one of the first 400 drawn cells is not occupied by the snake. -/
theorem placeFruit_succeeds_when_free_cell_drawn (rand : Nat → Nat × Nat) (g : Game)
    (cells : List Vector2) (hs : g.snake = some cells) :
    (∃ placed fruit k, PlaceFruit rand g = some (placed, { g with fruitPos := fruit }, k)
        ∧ k ≤ maxFruitPlaceAtttempts)
      ∧ ((∃ j, j < maxFruitPlaceAtttempts ∧ GetRandomTilePos (rand j) ∉ cells) →
          ∃ fruit k, PlaceFruit rand g = some (true, { g with fruitPos := fruit }, k)
            ∧ k ≤ maxFruitPlaceAtttempts ∧ fruit ∉ cells ∧ inBoard fruit) := by
  obtain ⟨l, hc, hmap⟩ := snake_eq_some_iff.mp hs
  subst hmap
  rcases placeFruit_cases rand hc with ⟨j, hj, _, hfree, hpf⟩ | ⟨hocc, hpf⟩
  · exact ⟨⟨true, _, _, hpf, hj⟩,
      fun _ => ⟨_, _, hpf, hj, hfree, getRandomTilePos_inBoard _⟩⟩
  · refine ⟨⟨false, _, _, hpf, le_refl _⟩, ?_⟩
    rintro ⟨j, hj, hfree⟩
    exact absurd (hocc j hj) hfree

/-- The instance of the amended claim C9 on the one-cell snake at `(0,0)` with a generator
whose second draw is the free cell `(1,0)`. -/
theorem placeFruit_succeeds_when_free_cell_drawn_witness :
    (gameOf [⟨0, 0⟩] ⟨1, 0⟩ ⟨5, 5⟩).snake = some [⟨0, 0⟩]
      ∧ (∃ j, j < maxFruitPlaceAtttempts
          ∧ GetRandomTilePos (countingDraws j) ∉ ([⟨0, 0⟩] : List Vector2))
      ∧ ∃ fruit k,
        PlaceFruit countingDraws (gameOf [⟨0, 0⟩] ⟨1, 0⟩ ⟨5, 5⟩)
            = some (true, { gameOf [⟨0, 0⟩] ⟨1, 0⟩ ⟨5, 5⟩ with fruitPos := fruit }, k)
          ∧ k ≤ maxFruitPlaceAtttempts ∧ fruit ∉ ([⟨0, 0⟩] : List Vector2) ∧ inBoard fruit :=
  have hdraw : ∃ j, j < maxFruitPlaceAtttempts
      ∧ GetRandomTilePos (countingDraws j) ∉ ([⟨0, 0⟩] : List Vector2) :=
    ⟨1, by decide, by decide⟩
  ⟨by decide, hdraw,
    (placeFruit_succeeds_when_free_cell_drawn countingDraws
      (gameOf [⟨0, 0⟩] ⟨1, 0⟩ ⟨5, 5⟩) [⟨0, 0⟩] (by decide)).2 hdraw⟩

/-- Claim C2: in a `PLAYING` state with the body `c :: cs`, when the timer elapses and the
prospective head cell is the fruit cell, `UpdateGame` (the allocation succeeding) returns with
the score one higher and the body equal to the prospective cell followed by the whole old
body; the old tail is still the tail and the length is one more. -/
theorem updateGame_eats_and_grows (delta : ℚ) (keys : Keys) (rand : Nat → Nat × Nat)
    (g : Game) (c : Vector2) (cs : List Vector2)
    (hp : g.gameStatus = GameStatus.PLAYING) (hs : g.snake = some (c :: cs))
    (ht : elapsed delta g) (hf : prospectiveHead keys g c = g.fruitPos) :
    ∃ g2, UpdateGame delta keys rand true g = some g2
      ∧ g2.score = g.score + 1
      ∧ g2.snake = some (prospectiveHead keys g c :: c :: cs)
      ∧ (prospectiveHead keys g c :: c :: cs).getLast? = (c :: cs).getLast?
      ∧ (prospectiveHead keys g c :: c :: cs).length = (c :: cs).length + 1 := by
  obtain ⟨g2, hup, h⟩ := updateGame_summary delta keys rand true hs (Or.inl rfl)
  have _ := hp
  rcases h with ⟨hne, _⟩ | ⟨_, hne, _⟩ | ⟨_, _, hsn, hsc, _⟩
  · exact absurd ht hne
  · exact absurd hf hne
  · exact ⟨g2, hup, hsc, hsn, by simp [List.getLast?_cons_cons], by simp⟩

/-- The example of claim C2: the snake `[(5,5)]` moving in direction `(1,0)` with the fruit at
`(6,5)` ends with score 1 and body `[(6,5), (5,5)]`. -/
theorem updateGame_eats_and_grows_witness :
    (gameOf [⟨5, 5⟩] ⟨1, 0⟩ ⟨6, 5⟩).gameStatus = GameStatus.PLAYING
      ∧ (gameOf [⟨5, 5⟩] ⟨1, 0⟩ ⟨6, 5⟩).snake = some [⟨5, 5⟩]
      ∧ elapsed 0 (gameOf [⟨5, 5⟩] ⟨1, 0⟩ ⟨6, 5⟩)
      ∧ prospectiveHead noKeys (gameOf [⟨5, 5⟩] ⟨1, 0⟩ ⟨6, 5⟩) ⟨5, 5⟩ = ⟨6, 5⟩
      ∧ ∃ g2, UpdateGame 0 noKeys stuckDraws true (gameOf [⟨5, 5⟩] ⟨1, 0⟩ ⟨6, 5⟩) = some g2
        ∧ g2.score = 1 ∧ g2.snake = some [⟨6, 5⟩, ⟨5, 5⟩] := by
  have ht : elapsed 0 (gameOf [⟨5, 5⟩] ⟨1, 0⟩ ⟨6, 5⟩) := by simp [elapsed, gameOf]
  have hf : prospectiveHead noKeys (gameOf [⟨5, 5⟩] ⟨1, 0⟩ ⟨6, 5⟩) ⟨5, 5⟩ = ⟨6, 5⟩ := by
    decide
  obtain ⟨g2, hup, hsc, hsn, _⟩ := updateGame_eats_and_grows 0 noKeys stuckDraws
    (gameOf [⟨5, 5⟩] ⟨1, 0⟩ ⟨6, 5⟩) ⟨5, 5⟩ [] rfl (by decide) ht hf
  rw [hf] at hsn
  exact ⟨rfl, by decide, ht, hf, g2, hup, hsc, hsn⟩

/-- Claim C3: from a state with a non-empty snake, every finite sequence of `UpdateGame` calls
whose allocations succeed returns, and the length of the snake afterwards is the length
before plus the number of calls that ate the fruit; so it is unchanged when no call eats, and
a single call adds one exactly when it eats. -/
theorem snake_length_after_updates (fs : List Frame) (g : Game) (cells : List Vector2)
    (hs : g.snake = some cells) (hne : cells ≠ [])
    (hal : ∀ f ∈ fs, f.allocOk = true) :
    (∃ g2 cells2, runUpdates fs g = some g2 ∧ g2.snake = some cells2
        ∧ cells2.length = cells.length + countEats fs g
        ∧ (countEats fs g = 0 → cells2.length = cells.length))
      ∧ ∀ (delta : ℚ) (keys : Keys) (rand : Nat → Nat × Nat),
          ∃ g2 cells2, UpdateGame delta keys rand true g = some g2 ∧ g2.snake = some cells2
            ∧ (eatsFruit delta keys g = true → cells2.length = cells.length + 1)
            ∧ (eatsFruit delta keys g = false → cells2.length = cells.length) := by
  constructor
  · induction fs generalizing g cells with
    | nil => exact ⟨g, cells, rfl, hs, rfl, fun _ => rfl⟩
    | cons f fs ih =>
      have hf : f.allocOk = true := hal f (List.mem_cons_self f fs)
      obtain ⟨g1, cells1, hup, hs1, hne1, hlen1⟩ :=
        updateGame_length f.delta f.keys f.rand hs hne
      obtain ⟨g2, cells2, hrun, hs2, hlen2, _⟩ :=
        ih g1 cells1 hs1 hne1 (fun f2 hf2 => hal f2 (List.mem_cons_of_mem f hf2))
      have hcount : countEats (f :: fs) g
          = (if eatsFruit f.delta f.keys g then 1 else 0) + countEats fs g1 := by
        simp only [countEats, hf, hup]
      have hlen : cells2.length = cells.length + countEats (f :: fs) g := by
        rw [hcount, hlen2, hlen1]
        omega
      refine ⟨g2, cells2, ?_, hs2, hlen, fun h0 => by rw [hlen, h0]; rfl⟩
      simp only [runUpdates, hf, hup, Option.some_bind, hrun]
  · intro delta keys rand
    obtain ⟨g2, cells2, hup, hs2, _, hlen⟩ := updateGame_length delta keys rand hs hne
    refine ⟨g2, cells2, hup, hs2, fun h => ?_, fun h => ?_⟩
    · rw [hlen, h]
      rfl
    · rw [hlen, h]
      rfl

/-- The instance of claim C3 on the snake `[(5,5)]` moving right with the fruit at `(6,5)` and
two calls, of which the first eats the fruit. -/
theorem snake_length_after_updates_witness :
    (gameOf [⟨5, 5⟩] ⟨1, 0⟩ ⟨6, 5⟩).snake = some [⟨5, 5⟩]
      ∧ ([⟨5, 5⟩] : List Vector2) ≠ []
      ∧ (∀ f ∈ [Frame.mk 0 noKeys false countingDraws true,
            Frame.mk 0 noKeys false countingDraws true], f.allocOk = true)
      ∧ ∃ g2 cells2,
          runUpdates [Frame.mk 0 noKeys false countingDraws true,
            Frame.mk 0 noKeys false countingDraws true] (gameOf [⟨5, 5⟩] ⟨1, 0⟩ ⟨6, 5⟩)
            = some g2
          ∧ g2.snake = some cells2
          ∧ cells2.length = ([⟨5, 5⟩] : List Vector2).length
              + countEats [Frame.mk 0 noKeys false countingDraws true,
                Frame.mk 0 noKeys false countingDraws true]
                (gameOf [⟨5, 5⟩] ⟨1, 0⟩ ⟨6, 5⟩) :=
  have hal : ∀ f ∈ [Frame.mk 0 noKeys false countingDraws true,
      Frame.mk 0 noKeys false countingDraws true], f.allocOk = true := by
    intro f hf
    simp only [List.mem_cons, List.mem_singleton, List.not_mem_nil, or_false, or_self] at hf
    rw [hf]
  have h := (snake_length_after_updates
    [Frame.mk 0 noKeys false countingDraws true, Frame.mk 0 noKeys false countingDraws true]
    (gameOf [⟨5, 5⟩] ⟨1, 0⟩ ⟨6, 5⟩) [⟨5, 5⟩] (by decide) (by decide) hal).1
  ⟨by decide, by decide, hal,
    h.elim fun g2 h2 => h2.elim fun cells2 h3 => ⟨g2, cells2, h3.1, h3.2.1, h3.2.2.1⟩⟩

/-- Claim C4: when the cells of the snake are pairwise distinct and a call of `UpdateGame`
returns with a status other than `LOST`, the cells afterwards are again pairwise distinct
(and the call does return on a non-empty snake when the allocation succeeds); hence in every
state the main loop reaches after `ResetGame` whose status is not `LOST`, the cells of the
snake are pairwise distinct. -/
theorem snake_cells_distinct (delta : ℚ) (keys : Keys) (rand : Nat → Nat × Nat)
    (allocOk : Bool) (g : Game) (cells : List Vector2)
    (hs : g.snake = some cells) (hnd : cells.Nodup) :
    (cells ≠ [] → allocOk = true → ∃ g2, UpdateGame delta keys rand allocOk g = some g2)
      ∧ (∀ g2, UpdateGame delta keys rand allocOk g = some g2 →
          g2.gameStatus ≠ GameStatus.LOST → ∃ cells2, g2.snake = some cells2 ∧ cells2.Nodup)
      ∧ ∀ r, Reachable r → r.gameStatus ≠ GameStatus.LOST →
          ∃ cells2, r.snake = some cells2 ∧ cells2.Nodup := by
  refine ⟨?_, ?_, ?_⟩
  · intro hne hal
    obtain ⟨c, cs, rfl⟩ := List.exists_cons_of_ne_nil hne
    obtain ⟨g2, hup, _⟩ := updateGame_summary delta keys rand allocOk hs (Or.inl hal)
    exact ⟨g2, hup⟩
  · intro g2 hup hst
    obtain ⟨cells2, hs2, h⟩ := updateGame_nodup delta keys rand allocOk hs hup
    exact ⟨cells2, hs2, h hnd hst⟩
  · intro r hr hst
    obtain ⟨cells2, hs2, h⟩ := reachable_nodup hr
    exact ⟨cells2, hs2, h hst⟩

/-- The instance of claim C4 on the one-cell snake at `(5,5)` moving right. -/
theorem snake_cells_distinct_witness :
    (gameOf [⟨5, 5⟩] ⟨1, 0⟩ ⟨6, 5⟩).snake = some [⟨5, 5⟩]
      ∧ ([⟨5, 5⟩] : List Vector2).Nodup
      ∧ (∃ g2, UpdateGame 0 noKeys stuckDraws true (gameOf [⟨5, 5⟩] ⟨1, 0⟩ ⟨6, 5⟩) = some g2)
      ∧ ∀ g2, UpdateGame 0 noKeys stuckDraws true (gameOf [⟨5, 5⟩] ⟨1, 0⟩ ⟨6, 5⟩) = some g2 →
          g2.gameStatus ≠ GameStatus.LOST → ∃ cells2, g2.snake = some cells2 ∧ cells2.Nodup :=
  have h := snake_cells_distinct 0 noKeys stuckDraws true (gameOf [⟨5, 5⟩] ⟨1, 0⟩ ⟨6, 5⟩)
    [⟨5, 5⟩] (by decide) (by decide)
  ⟨by decide, by decide, h.1 (by decide) rfl, h.2.1⟩

/-- Claim C5: a call of `UpdateGame` on a `PLAYING` state with the body `c :: cs` returns (the
allocation succeeding whenever a node is needed), and with `c2 :: cs2` the body afterwards:
the status is `LOST` exactly when `c2` is outside the board or is one of the other cells
`cs2`, in particular when its column is `boardWidth`; it is `WON` exactly when it is not `LOST`,
the call ate the fruit and `PlaceFruit` returned false; and it is `PLAYING` in all other
cases. -/
theorem updateGame_status (delta : ℚ) (keys : Keys) (rand : Nat → Nat × Nat) (allocOk : Bool)
    (g : Game) (c : Vector2) (cs : List Vector2)
    (hp : g.gameStatus = GameStatus.PLAYING) (hs : g.snake = some (c :: cs))
    (hal : allocOk = true ∨ ¬ (elapsed delta g ∧ prospectiveHead keys g c = g.fruitPos)) :
    ∃ g2 c2 cs2, UpdateGame delta keys rand allocOk g = some g2
      ∧ g2.snake = some (c2 :: cs2)
      ∧ (g2.gameStatus = GameStatus.LOST ↔
          (c2.x < 0 ∨ c2.y < 0 ∨ c2.x > boardWidth - 1 ∨ c2.y > boardHeight - 1) ∨ c2 ∈ cs2)
      ∧ (c2.x = boardWidth → g2.gameStatus = GameStatus.LOST)
      ∧ (g2.gameStatus = GameStatus.WON ↔
          g2.gameStatus ≠ GameStatus.LOST
            ∧ (elapsed delta g ∧ prospectiveHead keys g c = g.fruitPos)
            ∧ (PlaceFruit rand g).map Prod.fst = some false)
      ∧ (g2.gameStatus = GameStatus.PLAYING ↔
          g2.gameStatus ≠ GameStatus.LOST
            ∧ ¬ ((elapsed delta g ∧ prospectiveHead keys g c = g.fruitPos)
              ∧ (PlaceFruit rand g).map Prod.fst = some false)) := by
  have hwide : ∀ c2 : Vector2, c2.x = boardWidth → ¬ inBoard c2 := by
    intro c2 hx
    unfold inBoard
    omega
  obtain ⟨g2, hup, h⟩ := updateGame_summary delta keys rand allocOk hs hal
  rcases h with ⟨hne, hsn, _, _, hst⟩ | ⟨_, hne, hsn, _, _, hst⟩
    | ⟨ht, hf, hsn, _, placed, k, hpl, hst⟩
  · refine ⟨g2, c, cs, hup, hsn, ?_, ?_, ?_, ?_⟩
    · rw [hst, hp, ← not_inBoard_iff]
      by_cases hb : inBoard c <;> by_cases hm : c ∈ cs <;> simp [hb, hm]
    · intro hx
      rw [hst, hp]
      simp [hwide c hx]
    · rw [hst, hp]
      by_cases hb : inBoard c <;> by_cases hm : c ∈ cs <;> simp [hb, hm, hne]
    · rw [hst, hp]
      by_cases hb : inBoard c <;> by_cases hm : c ∈ cs <;> simp [hb, hm, hne]
  · refine ⟨g2, _, _, hup, hsn, ?_, ?_, ?_, ?_⟩
    · rw [hst, hp, ← not_inBoard_iff]
      by_cases hb : inBoard (prospectiveHead keys g c) <;>
        by_cases hm : prospectiveHead keys g c ∈ (c :: cs).dropLast <;> simp [hb, hm]
    · intro hx
      rw [hst, hp]
      simp [hwide _ hx]
    · rw [hst, hp]
      by_cases hb : inBoard (prospectiveHead keys g c) <;>
        by_cases hm : prospectiveHead keys g c ∈ (c :: cs).dropLast <;> simp [hb, hm, hne]
    · rw [hst, hp]
      by_cases hb : inBoard (prospectiveHead keys g c) <;>
        by_cases hm : prospectiveHead keys g c ∈ (c :: cs).dropLast <;> simp [hb, hm, hne]
  · have hflag := placeFlag_of_map hpl
    have hef : (elapsed delta g ∧ prospectiveHead keys g c = g.fruitPos) ↔ True :=
      iff_true_intro ⟨ht, hf⟩
    refine ⟨g2, _, _, hup, hsn, ?_, ?_, ?_, ?_⟩
    · rw [hst, hp, ← not_inBoard_iff]
      by_cases hb : inBoard (prospectiveHead keys g c) <;>
        by_cases hm : prospectiveHead keys g c ∈ c :: cs <;> cases placed <;> simp [hb, hm]
    · intro hx
      rw [hst, hp]
      simp [hwide _ hx]
    · rw [hst, hp, hflag, hef]
      by_cases hb : inBoard (prospectiveHead keys g c) <;>
        by_cases hm : prospectiveHead keys g c ∈ c :: cs <;> cases placed <;>
          simp [hb, hm]
    · rw [hst, hp, hflag, hef]
      by_cases hb : inBoard (prospectiveHead keys g c) <;>
        by_cases hm : prospectiveHead keys g c ∈ c :: cs <;> cases placed <;>
          simp [hb, hm]

/-- The instance of claim C5 on the one-cell snake at `(19,5)` moving right: the head reaches
the column `boardWidth`. -/
theorem updateGame_status_witness :
    edgeSnake.gameStatus = GameStatus.PLAYING
      ∧ edgeSnake.snake = some [⟨19, 5⟩]
      ∧ ∃ g2 c2 cs2, UpdateGame 0 noKeys stuckDraws true edgeSnake = some g2
        ∧ g2.snake = some (c2 :: cs2)
        ∧ (g2.gameStatus = GameStatus.LOST ↔
            (c2.x < 0 ∨ c2.y < 0 ∨ c2.x > boardWidth - 1 ∨ c2.y > boardHeight - 1) ∨ c2 ∈ cs2)
        ∧ (c2.x = boardWidth → g2.gameStatus = GameStatus.LOST)
        ∧ (g2.gameStatus = GameStatus.WON ↔
            g2.gameStatus ≠ GameStatus.LOST
              ∧ (elapsed 0 edgeSnake
                ∧ prospectiveHead noKeys edgeSnake ⟨19, 5⟩ = edgeSnake.fruitPos)
              ∧ (PlaceFruit stuckDraws edgeSnake).map Prod.fst = some false)
        ∧ (g2.gameStatus = GameStatus.PLAYING ↔
            g2.gameStatus ≠ GameStatus.LOST
              ∧ ¬ ((elapsed 0 edgeSnake
                  ∧ prospectiveHead noKeys edgeSnake ⟨19, 5⟩ = edgeSnake.fruitPos)
                ∧ (PlaceFruit stuckDraws edgeSnake).map Prod.fst = some false)) :=
  ⟨rfl, by decide,
    updateGame_status 0 noKeys stuckDraws true edgeSnake ⟨19, 5⟩ [] rfl (by decide)
      (Or.inl rfl)⟩

/-- Claim C6 as stated fails. On `squareSnake` the timer elapses and the prospective head cell
`(1,0)` is a cell of the body other than the head, yet the call ends in `PLAYING`: the cell is
the tail, which moves away. On `coiledSnakeOnFruit` the prospective head cell is a cell of the
body other than the head and the call ends in `LOST`, but the score has gone up, for the
fruit lies on that cell. -/
theorem self_collision_claim_fails :
    (squareSnake.gameStatus = GameStatus.PLAYING ∧ elapsed 0 squareSnake
        ∧ squareSnake.snake = some [⟨0, 0⟩, ⟨0, 1⟩, ⟨1, 1⟩, ⟨1, 0⟩]
        ∧ prospectiveHead noKeys squareSnake ⟨0, 0⟩ ∈ ([⟨0, 1⟩, ⟨1, 1⟩, ⟨1, 0⟩] : List Vector2)
        ∧ (UpdateGame 0 noKeys stuckDraws true squareSnake).map (fun g2 => g2.gameStatus)
          = some GameStatus.PLAYING)
      ∧ (coiledSnakeOnFruit.gameStatus = GameStatus.PLAYING ∧ elapsed 0 coiledSnakeOnFruit
        ∧ coiledSnakeOnFruit.snake = some [⟨0, 0⟩, ⟨0, 1⟩, ⟨1, 1⟩, ⟨1, 0⟩, ⟨2, 0⟩]
        ∧ prospectiveHead noKeys coiledSnakeOnFruit ⟨0, 0⟩
            ∈ ([⟨0, 1⟩, ⟨1, 1⟩, ⟨1, 0⟩, ⟨2, 0⟩] : List Vector2)
        ∧ coiledSnakeOnFruit.score = 0
        ∧ (UpdateGame 0 noKeys stuckDraws true coiledSnakeOnFruit).map
            (fun g2 => (g2.gameStatus, g2.score)) = some (GameStatus.LOST, 1)) := by
  have hs1 : squareSnake.snake = some [⟨0, 0⟩, ⟨0, 1⟩, ⟨1, 1⟩, ⟨1, 0⟩] := by decide
  have hs2 : coiledSnakeOnFruit.snake = some [⟨0, 0⟩, ⟨0, 1⟩, ⟨1, 1⟩, ⟨1, 0⟩, ⟨2, 0⟩] := by
    decide
  have ht1 : elapsed 0 squareSnake := elapsed_gameOf _ _ _
  have ht2 : elapsed 0 coiledSnakeOnFruit := elapsed_gameOf _ _ _
  refine ⟨⟨rfl, ht1, hs1, by decide, ?_⟩, ⟨rfl, ht2, hs2, by decide, rfl, ?_⟩⟩
  · obtain ⟨g2, hup, h⟩ := updateGame_summary 0 noKeys stuckDraws true hs1 (Or.inl rfl)
    rw [hup]
    rcases h with ⟨hne, _⟩ | ⟨_, _, _, _, _, hst⟩ | ⟨_, hf, _⟩
    · exact absurd ht1 hne
    · simp only [Option.map_some', hst]
      decide
    · exact absurd hf (by decide)
  · obtain ⟨g2, hup, h⟩ := updateGame_summary 0 noKeys stuckDraws true hs2 (Or.inl rfl)
    rw [hup]
    rcases h with ⟨hne, _⟩ | ⟨_, hne, _⟩ | ⟨_, _, _, hsc, _, _, _, hst⟩
    · exact absurd ht2 hne
    · exact absurd (by decide) hne
    · have hhit : ¬ (inBoard (prospectiveHead noKeys coiledSnakeOnFruit ⟨0, 0⟩)
          ∧ prospectiveHead noKeys coiledSnakeOnFruit ⟨0, 0⟩
            ∉ ([⟨0, 0⟩, ⟨0, 1⟩, ⟨1, 1⟩, ⟨1, 0⟩, ⟨2, 0⟩] : List Vector2)) := by decide
      simp only [Option.map_some', hst, hsc, if_neg hhit]
      rfl

/-- Claim C6, amended: in a `PLAYING` state with the body `c :: cs`, when the timer elapses and
the prospective head cell is one of the cells of the body other than the head and the tail
and is not the fruit cell, `UpdateGame` returns with the status `LOST` and the score
unchanged. -/
theorem updateGame_self_collision (delta : ℚ) (keys : Keys) (rand : Nat → Nat × Nat)
    (allocOk : Bool) (g : Game) (c : Vector2) (cs : List Vector2)
    (hp : g.gameStatus = GameStatus.PLAYING) (hs : g.snake = some (c :: cs))
    (ht : elapsed delta g) (hm : prospectiveHead keys g c ∈ cs.dropLast)
    (hf : prospectiveHead keys g c ≠ g.fruitPos) :
    ∃ g2, UpdateGame delta keys rand allocOk g = some g2
      ∧ g2.gameStatus = GameStatus.LOST ∧ g2.score = g.score := by
  have _ := hp
  obtain ⟨g2, hup, h⟩ :=
    updateGame_summary delta keys rand allocOk hs (Or.inr fun h => hf h.2)
  rcases h with ⟨hne, _⟩ | ⟨_, _, _, hsc, _, hst⟩ | ⟨_, hf2, _⟩
  · exact absurd ht hne
  · refine ⟨g2, hup, ?_, hsc⟩
    have hcs : cs ≠ [] := by
      intro h0
      simp [h0] at hm
    have hmem : prospectiveHead keys g c ∈ (c :: cs).dropLast := by
      rw [List.dropLast_cons_of_ne_nil hcs]
      exact List.mem_cons_of_mem c hm
    rw [hst, if_neg (fun h => h.2 hmem)]
  · exact absurd hf2 hf

/-- The instance of the amended claim C6 on `coiledSnake`. -/
theorem updateGame_self_collision_witness :
    coiledSnake.gameStatus = GameStatus.PLAYING
      ∧ coiledSnake.snake = some [⟨0, 0⟩, ⟨0, 1⟩, ⟨1, 1⟩, ⟨1, 0⟩, ⟨2, 0⟩]
      ∧ elapsed 0 coiledSnake
      ∧ prospectiveHead noKeys coiledSnake ⟨0, 0⟩
          ∈ ([⟨0, 1⟩, ⟨1, 1⟩, ⟨1, 0⟩, ⟨2, 0⟩] : List Vector2).dropLast
      ∧ prospectiveHead noKeys coiledSnake ⟨0, 0⟩ ≠ coiledSnake.fruitPos
      ∧ ∃ g2, UpdateGame 0 noKeys stuckDraws true coiledSnake = some g2
        ∧ g2.gameStatus = GameStatus.LOST ∧ g2.score = coiledSnake.score :=
  ⟨rfl, by decide, elapsed_gameOf _ _ _, by decide, by decide,
    updateGame_self_collision 0 noKeys stuckDraws true coiledSnake ⟨0, 0⟩
      [⟨0, 1⟩, ⟨1, 1⟩, ⟨1, 0⟩, ⟨2, 0⟩] rfl (by decide) (elapsed_gameOf _ _ _) (by decide)
      (by decide)⟩

set_option maxRecDepth 100000 in
/-- Claim C7 at the failing input `fullBoardSnake`: the state is `PLAYING`, the 399 pairwise
distinct cells of the snake lie on the board and cover every cell of it except the fruit
cell `(0,0)`, and the call moves the head onto the fruit cell. When the generator draws the
cell `(0,0)`, `PlaceFruit` runs before the snake has moved, finds the cell free and succeeds:
the call ends in `PLAYING`, not `WON`, with the snake on all 400 cells and the fruit under
its head. -/
theorem win_missed_on_full_board :
    fullBoardSnake.gameStatus = GameStatus.PLAYING
      ∧ fullBoardSnake.snake = some fullBoardBody
      ∧ fullBoardBody.Nodup
      ∧ (∀ c ∈ fullBoardBody, inBoard c)
      ∧ (∀ c, inBoard c → c ≠ fullBoardSnake.fruitPos → c ∈ fullBoardBody)
      ∧ fullBoardSnake.fruitPos ∉ fullBoardBody
      ∧ elapsed 0 fullBoardSnake
      ∧ (∃ cs, fullBoardBody = ⟨1, 0⟩ :: cs
          ∧ prospectiveHead noKeys fullBoardSnake ⟨1, 0⟩ = fullBoardSnake.fruitPos)
      ∧ ∃ g2, UpdateGame 0 noKeys stuckDraws true fullBoardSnake = some g2
          ∧ g2.gameStatus = GameStatus.PLAYING
          ∧ g2.snake = some (⟨0, 0⟩ :: fullBoardBody)
          ∧ g2.fruitPos = ⟨0, 0⟩ := by
  have hs : fullBoardSnake.snake = some fullBoardBody := snake_gameOf _ _ _
  have hfree : (⟨0, 0⟩ : Vector2) ∉ fullBoardBody := by decide
  have hin : ∀ c ∈ fullBoardBody, inBoard c := by decide
  have ht : elapsed 0 fullBoardSnake := elapsed_gameOf _ _ _
  obtain ⟨cs, hcs⟩ : ∃ cs, fullBoardBody = ⟨1, 0⟩ :: cs := ⟨fullBoardBody.tail, by decide⟩
  have hf : prospectiveHead noKeys fullBoardSnake ⟨1, 0⟩ = fullBoardSnake.fruitPos := by
    decide
  refine ⟨rfl, hs, nodup_fullBoardBody, hin, fun c hb hne => mem_fullBoardBody c hb hne,
    hfree, ht, ⟨cs, hcs, hf⟩, ?_⟩
  have hs2 : fullBoardSnake.snake = some (⟨1, 0⟩ :: cs) := by rw [hs, hcs]
  obtain ⟨l, hc, hmap⟩ := snake_eq_some_iff.mp hs
  have hpf := placeFruit_found stuckDraws hc 0 (by decide) (fun m hm => absurd hm (by omega))
    (by rw [hmap]; exact hfree)
  obtain ⟨g2, hup, h⟩ := updateGame_summary 0 noKeys stuckDraws true hs2 (Or.inl rfl)
  rcases h with ⟨hne, _⟩ | ⟨_, hne, _⟩ | ⟨_, _, hsn, _, placed, k, hpl, hst⟩
  · exact absurd ht hne
  · exact absurd hf hne
  · rw [hpf] at hpl
    simp only [Option.map_some', Option.some.injEq, Prod.mk.injEq] at hpl
    obtain ⟨hplaced, hfruit, _⟩ := hpl
    have hok : inBoard (prospectiveHead noKeys fullBoardSnake ⟨1, 0⟩)
        ∧ prospectiveHead noKeys fullBoardSnake ⟨1, 0⟩ ∉ (⟨1, 0⟩ : Vector2) :: cs := by
      rw [← hcs, hf]
      exact ⟨by decide, hfree⟩
    refine ⟨g2, hup, ?_, ?_, ?_⟩
    · rw [hst, if_pos hok, ← hplaced]
      rfl
    · rw [hsn, hf, hcs]
      rfl
    · rw [← hfruit]
      rfl

/-- Claim C14: from every prior state whose snake is a chain of nodes (empty or not) and for
every outcome of the generator, `ResetGame` with a successful allocation returns; afterwards
the status is `RESET`, the score and the timer are 0, the direction and the input buffer are
the zero vector, and the snake has exactly one cell, which lies on the board. -/
theorem resetGame_fresh_state (rand : Nat → Nat × Nat) (g0 : Game) (cells0 : List Vector2)
    (hs0 : g0.snake = some cells0) :
    ∃ g, ResetGame rand true g0 = some g
      ∧ g.gameStatus = GameStatus.RESET ∧ g.score = 0 ∧ g.snakeMoveTimer = 0
      ∧ g.snakeDirection = Vector2Zero ∧ g.inputBuffer = Vector2Zero
      ∧ ∃ c, g.snake = some [c] ∧ [c].length = 1
        ∧ 0 ≤ c.x ∧ c.x ≤ 19 ∧ 0 ≤ c.y ∧ c.y ≤ 19 := by
  obtain ⟨g, hr, h1, h2, h3, h4, h5, hsn⟩ := resetGame_summary rand true hs0
  have hb := getRandomTilePos_inBoard (rand 0)
  simp only [inBoard, boardWidth, boardHeight] at hb
  refine ⟨g, hr, h1, h2, h3, h4, h5, GetRandomTilePos (rand 0), ?_, rfl, ?_⟩
  · simpa using hsn
  · omega

/-- The instance of claim C14 on the state in which `main` starts. -/
theorem resetGame_fresh_state_witness :
    initialGame.snake = some []
      ∧ ∃ g, ResetGame countingDraws true initialGame = some g
        ∧ g.gameStatus = GameStatus.RESET ∧ g.score = 0 ∧ g.snakeMoveTimer = 0
        ∧ g.snakeDirection = Vector2Zero ∧ g.inputBuffer = Vector2Zero
        ∧ ∃ c, g.snake = some [c] ∧ [c].length = 1
          ∧ 0 ≤ c.x ∧ c.x ≤ 19 ∧ 0 ≤ c.y ∧ c.y ≤ 19 :=
  ⟨rfl, resetGame_fresh_state countingDraws initialGame [] rfl⟩

/-- Claim C16: in a `PLAYING` state whose head is valid, a call of `UpdateGame` with
`snakeMoveTimer - delta > 0` returns the same state except for the timer, which becomes
`snakeMoveTimer - delta`, and the input buffer; body, direction, score, fruit cell and status
are unchanged. With `snakeMoveTimer - delta ≤ 0` the call (the allocation succeeding whenever a
node is needed) puts the head one application of the active direction further, in front of
the old body or of the old body without its tail, and the timer becomes
`snakeMoveTimer - delta + snakeMoveTimerStart`. -/
theorem updateGame_timer_gating (delta : ℚ) (keys : Keys) (rand : Nat → Nat × Nat)
    (allocOk : Bool) (g : Game) (c : Vector2) (cs : List Vector2)
    (hp : g.gameStatus = GameStatus.PLAYING) (hs : g.snake = some (c :: cs))
    (hv : inBoard c ∧ c ∉ cs)
    (hal : allocOk = true ∨ ¬ (elapsed delta g ∧ prospectiveHead keys g c = g.fruitPos)) :
    (0 < g.snakeMoveTimer - delta →
        ∃ g2, UpdateGame delta keys rand allocOk g = some g2
          ∧ g2 = { g with
              snakeMoveTimer := g.snakeMoveTimer - delta
              inputBuffer := g2.inputBuffer }
          ∧ g2.snake = some (c :: cs) ∧ g2.snakeDirection = g.snakeDirection
          ∧ g2.score = g.score ∧ g2.fruitPos = g.fruitPos
          ∧ g2.gameStatus = GameStatus.PLAYING)
      ∧ (g.snakeMoveTimer - delta ≤ 0 →
        ∃ g2 rest, UpdateGame delta keys rand allocOk g = some g2
          ∧ g2.snake = some (Vector2Add c g2.snakeDirection :: rest)
          ∧ g2.snakeDirection = activeDirection keys g
          ∧ (rest = c :: cs ∨ rest = (c :: cs).dropLast)
          ∧ g2.snakeMoveTimer = g.snakeMoveTimer - delta + snakeMoveTimerStart) := by
  obtain ⟨g2, hup, hw, he⟩ := updateGame_motion delta keys rand allocOk hs hal
  obtain ⟨g3, hup3, h⟩ := updateGame_summary delta keys rand allocOk hs hal
  rw [hup] at hup3
  obtain rfl := Option.some.inj hup3
  constructor
  · intro hpos
    have hne : ¬ elapsed delta g := not_le.mpr hpos
    have heq := hw hne
    rcases h with ⟨_, hsn, hsc, hfr, hst⟩ | ⟨ht, _⟩ | ⟨ht, _⟩
    · rw [if_pos hv, hp] at hst
      refine ⟨g2, hup, ?_, hsn, ?_, hsc, hfr, hst⟩
      · have hst2 : g2.gameStatus = g.gameStatus := by rw [hst, hp]
        rw [hst2] at heq
        rw [heq]
      · rw [heq]
    · exact absurd ht hne
    · exact absurd ht hne
  · intro hle
    have ht : elapsed delta g := hle
    obtain ⟨hdir, _, htm⟩ := he ht
    rcases h with ⟨hne, _⟩ | ⟨_, _, hsn, _⟩ | ⟨_, _, hsn, _⟩
    · exact absurd ht hne
    · refine ⟨g2, _, hup, ?_, hdir, Or.inr rfl, htm⟩
      rw [hsn, hdir]
      rfl
    · refine ⟨g2, _, hup, ?_, hdir, Or.inl rfl, htm⟩
      rw [hsn, hdir]
      rfl

/-- The instance of claim C16 on `waitingSnake` with a tenth of a second elapsed: the timer
has not run out and only the timer changes. -/
theorem updateGame_timer_gating_witness :
    waitingSnake.gameStatus = GameStatus.PLAYING
      ∧ waitingSnake.snake = some [⟨5, 5⟩]
      ∧ (inBoard ⟨5, 5⟩ ∧ (⟨5, 5⟩ : Vector2) ∉ ([] : List Vector2))
      ∧ (0 : ℚ) < waitingSnake.snakeMoveTimer - 1 / 10
      ∧ ∃ g2, UpdateGame (1 / 10) noKeys stuckDraws true waitingSnake = some g2
        ∧ g2 = { waitingSnake with
            snakeMoveTimer := waitingSnake.snakeMoveTimer - 1 / 10
            inputBuffer := g2.inputBuffer }
        ∧ g2.snake = some [⟨5, 5⟩] ∧ g2.snakeDirection = waitingSnake.snakeDirection
        ∧ g2.score = waitingSnake.score ∧ g2.fruitPos = waitingSnake.fruitPos
        ∧ g2.gameStatus = GameStatus.PLAYING :=
  have hpos : (0 : ℚ) < waitingSnake.snakeMoveTimer - 1 / 10 := by decide!
  ⟨rfl, by decide, by decide, hpos,
    (updateGame_timer_gating (1 / 10) noKeys stuckDraws true waitingSnake ⟨5, 5⟩ [] rfl
      (by decide) (by decide) (Or.inl rfl)).1 hpos⟩

/-- Claim C11: in a `PLAYING` state with the non-zero direction `D`, a call of `UpdateGame`
whose input sample is `-D` or `D` gives the same result as the same call with a zero input
sample; and when the input buffer is empty the call (on a non-empty snake, the allocation
succeeding whenever a node is needed) returns with the direction still `D`. -/
theorem updateGame_ignores_parallel_input (delta : ℚ) (keys keys0 : Keys)
    (rand : Nat → Nat × Nat) (allocOk : Bool) (g : Game)
    (hp : g.gameStatus = GameStatus.PLAYING) (hD : g.snakeDirection ≠ Vector2Zero)
    (hin : GetInputDirection keys = Vector2Negate g.snakeDirection
      ∨ GetInputDirection keys = g.snakeDirection)
    (h0 : GetInputDirection keys0 = Vector2Zero) :
    UpdateGame delta keys rand allocOk g = UpdateGame delta keys0 rand allocOk g
      ∧ ∀ c cs, g.snake = some (c :: cs) →
          (allocOk = true ∨ ¬ (elapsed delta g ∧ prospectiveHead keys g c = g.fruitPos)) →
          g.inputBuffer = Vector2Zero →
          ∃ g2, UpdateGame delta keys rand allocOk g = some g2
            ∧ g2.snakeDirection = g.snakeDirection := by
  have _ := hp
  have _ := hD
  have hb : bufferInput keys g = g := bufferInput_parallel g hin
  refine ⟨updateGame_congr_buffer delta keys keys0 rand allocOk g
    (by rw [hb, bufferInput_of_zero g h0]), ?_⟩
  intro c cs hs hal hbuf
  obtain ⟨g2, hup, hw, he⟩ := updateGame_motion delta keys rand allocOk hs hal
  refine ⟨g2, hup, ?_⟩
  by_cases ht : elapsed delta g
  · rw [(he ht).1]
    simp [activeDirection, hb, takeDirection, hbuf, Vector2Equals, Vector2Zero]
  · rw [hw ht]

/-- The instance of claim C11 on the one-cell snake at `(5,5)` moving right, with the left key
as the input. -/
theorem updateGame_ignores_parallel_input_witness :
    (gameOf [⟨5, 5⟩] ⟨1, 0⟩ ⟨7, 5⟩).gameStatus = GameStatus.PLAYING
      ∧ (gameOf [⟨5, 5⟩] ⟨1, 0⟩ ⟨7, 5⟩).snakeDirection ≠ Vector2Zero
      ∧ GetInputDirection leftKey = Vector2Negate (gameOf [⟨5, 5⟩] ⟨1, 0⟩ ⟨7, 5⟩).snakeDirection
      ∧ GetInputDirection noKeys = Vector2Zero
      ∧ UpdateGame 0 leftKey stuckDraws true (gameOf [⟨5, 5⟩] ⟨1, 0⟩ ⟨7, 5⟩)
          = UpdateGame 0 noKeys stuckDraws true (gameOf [⟨5, 5⟩] ⟨1, 0⟩ ⟨7, 5⟩) :=
  ⟨rfl, by decide, by decide, by decide,
    (updateGame_ignores_parallel_input 0 leftKey noKeys stuckDraws true
      (gameOf [⟨5, 5⟩] ⟨1, 0⟩ ⟨7, 5⟩) rfl (by decide) (Or.inl (by decide)) (by decide)).1⟩

/-- Claim C12 as stated fails in `UpdateGame`. The sample of `rightDownKeys` is `(1,1)`. On
`downwardSnake`, which moves down, lines 129 to 134 write the horizontal vector `(1,0)` to
the input buffer and the call returns with it there; on `startedGame`, whose direction is
still zero, they write the sample `(1,1)` itself. Neither is `(0,1)`. -/
theorem tie_break_claim_fails :
    GetInputDirection rightDownKeys = ⟨1, 1⟩
      ∧ (downwardSnake.gameStatus = GameStatus.PLAYING
        ∧ downwardSnake.snakeDirection = ⟨0, 1⟩
        ∧ (bufferInput rightDownKeys downwardSnake).inputBuffer = ⟨1, 0⟩
        ∧ (UpdateGame 0 rightDownKeys stuckDraws true downwardSnake).map
            (fun g2 => g2.inputBuffer) = some ⟨1, 0⟩)
      ∧ (startedGame.gameStatus = GameStatus.PLAYING
        ∧ startedGame.snakeDirection = ⟨0, 0⟩
        ∧ (bufferInput rightDownKeys startedGame).inputBuffer = ⟨1, 1⟩) := by
  decide!

/-- Claim C12, amended: for an input sample with both components non-zero, the RESET branch
of the main loop writes the vertical vector `(0, input.y)` to the input buffer (and starts
the game); lines 129 to 134 of `UpdateGame` write `(0, input.y)` when the snake moves
horizontally and the horizontal vector `(input.x, 0)` when it moves vertically. -/
theorem tie_break_by_direction (keys : Keys)
    (hx : (GetInputDirection keys).x ≠ 0) (hy : (GetInputDirection keys).y ≠ 0) :
    (∀ (f : Frame) (g : Game), f.keys = keys → g.gameStatus = GameStatus.RESET →
        mainStep f g = some { g with
            inputBuffer := ⟨0, (GetInputDirection keys).y⟩
            gameStatus := GameStatus.PLAYING })
      ∧ (∀ g : Game, g.snakeDirection.x ≠ 0 → g.snakeDirection.y = 0 →
          (bufferInput keys g).inputBuffer = ⟨0, (GetInputDirection keys).y⟩)
      ∧ (∀ g : Game, g.snakeDirection.x = 0 → g.snakeDirection.y ≠ 0 →
          (bufferInput keys g).inputBuffer = ⟨(GetInputDirection keys).x, 0⟩) := by
  refine ⟨?_, ?_, ?_⟩
  · intro f g hk hst
    subst hk
    have hne : (!Vector2Equals (GetInputDirection f.keys) Vector2Zero) = true := by
      simp only [Bool.not_eq_true', ← Bool.not_eq_true, Vector2Equals_iff]
      intro h
      rw [h] at hx
      exact hx rfl
    simp only [mainStep, hst, hne, if_true, hx, hy, ne_eq, not_false_eq_true, and_self]
  · intro g hdx hdy
    have hne : (!Vector2Equals ⟨0, (GetInputDirection keys).y⟩ Vector2Zero) = true := by
      simp only [Bool.not_eq_true', ← Bool.not_eq_true, Vector2Equals_iff, Vector2Zero,
        Vector2.mk.injEq, true_and]
      exact hy
    simp only [bufferInput, hx, hy, hdx, hdy, ne_eq, not_false_eq_true, and_self, if_true,
      not_true_eq_false, and_false, if_false, hne]
  · intro g hdx hdy
    have hne : (!Vector2Equals ⟨(GetInputDirection keys).x, 0⟩ Vector2Zero) = true := by
      simp only [Bool.not_eq_true', ← Bool.not_eq_true, Vector2Equals_iff, Vector2Zero,
        Vector2.mk.injEq, and_true]
      exact hx
    simp only [bufferInput, hx, hy, hdx, hdy, ne_eq, not_false_eq_true, and_self, if_true,
      not_true_eq_false, and_false, if_false, hne]

/-- The instance of the amended claim C12 on the sample `(1,1)` of `rightDownKeys`. -/
theorem tie_break_by_direction_witness :
    (GetInputDirection rightDownKeys).x ≠ 0 ∧ (GetInputDirection rightDownKeys).y ≠ 0
      ∧ (∀ g : Game, g.snakeDirection.x ≠ 0 → g.snakeDirection.y = 0 →
          (bufferInput rightDownKeys g).inputBuffer
            = ⟨0, (GetInputDirection rightDownKeys).y⟩) :=
  ⟨by decide, by decide, (tie_break_by_direction rightDownKeys (by decide) (by decide)).2.1⟩

/-- Claim C13 as stated fails. `ResetGame` at the start of `main` gives `freshGame`; the frame
in which the right key is pressed gives `startedGame`, with the status `PLAYING` and `(1,0)`
in the input buffer, but with `snakeDirection` still zero. On the following call of
`UpdateGame` the opposite input, the left key, is therefore not rejected: the snake moves
left, to `(4,5)`. -/
theorem reset_branch_claim_fails :
    ResetGame openingDraws true initialGame = some freshGame
      ∧ freshGame.gameStatus = GameStatus.RESET
      ∧ GetInputDirection rightKey = ⟨1, 0⟩
      ∧ mainStep ⟨0, rightKey, true, openingDraws, true⟩ freshGame = some startedGame
      ∧ startedGame.gameStatus = GameStatus.PLAYING
      ∧ startedGame.inputBuffer = ⟨1, 0⟩
      ∧ startedGame.snakeDirection = ⟨0, 0⟩
      ∧ GetInputDirection leftKey = Vector2Negate ⟨1, 0⟩
      ∧ UpdateGame 0 leftKey openingDraws true startedGame = some reversedGame
      ∧ reversedGame.snakeDirection = ⟨-1, 0⟩
      ∧ reversedGame.snake = some [⟨4, 5⟩] := by
  decide!

/-- Claim C13, amended: when the main loop handles the `RESET` status with a non-zero input
direction, the status becomes `PLAYING` and the tie-broken direction `d`, which is not zero,
is stored in the input buffer; nothing else changes on that step, so `snakeDirection` keeps
its value. On the following call of `UpdateGame`, if the timer elapses and the input sample
of that call is zero, `d` becomes `snakeDirection` and the buffer is emptied. -/
theorem reset_branch_starts_game (f : Frame) (g : Game)
    (hst : g.gameStatus = GameStatus.RESET)
    (hin : GetInputDirection f.keys ≠ Vector2Zero) :
    ∃ d : Vector2, d ≠ Vector2Zero
      ∧ d = ⟨if (GetInputDirection f.keys).x ≠ 0 ∧ (GetInputDirection f.keys).y ≠ 0 then 0
              else (GetInputDirection f.keys).x, (GetInputDirection f.keys).y⟩
      ∧ mainStep f g = some { g with inputBuffer := d, gameStatus := GameStatus.PLAYING }
      ∧ ∀ (delta : ℚ) (keys : Keys) (rand : Nat → Nat × Nat) (c : Vector2)
          (cs : List Vector2), g.snake = some (c :: cs) →
          GetInputDirection keys = Vector2Zero → elapsed delta g →
          ∃ g2, UpdateGame delta keys rand true
              { g with inputBuffer := d, gameStatus := GameStatus.PLAYING } = some g2
            ∧ g2.snakeDirection = d ∧ g2.inputBuffer = Vector2Zero := by
  have hne : (!Vector2Equals (GetInputDirection f.keys) Vector2Zero) = true := by
    simp only [Bool.not_eq_true', ← Bool.not_eq_true, Vector2Equals_iff]
    exact hin
  have hd : (⟨if (GetInputDirection f.keys).x ≠ 0 ∧ (GetInputDirection f.keys).y ≠ 0 then 0
      else (GetInputDirection f.keys).x, (GetInputDirection f.keys).y⟩ : Vector2)
      ≠ Vector2Zero := by
    intro h
    simp only [Vector2Zero, Vector2.mk.injEq] at h
    obtain ⟨h1, h2⟩ := h
    apply hin
    have hxz : (GetInputDirection f.keys).x = 0 := by
      split_ifs at h1 with hc
      · exact absurd h2 hc.2
      · exact h1
    cases hv : GetInputDirection f.keys with
    | mk x y =>
      rw [hv] at hxz h2
      simp only at hxz h2
      rw [hxz, h2]
      rfl
  refine ⟨_, hd, rfl, ?_, ?_⟩
  · simp only [mainStep, hst, hne, if_true]
  · intro delta keys rand c cs hs h0 ht
    have hs1 : ({ g with
        inputBuffer := (⟨if (GetInputDirection f.keys).x ≠ 0
            ∧ (GetInputDirection f.keys).y ≠ 0 then 0
          else (GetInputDirection f.keys).x, (GetInputDirection f.keys).y⟩ : Vector2)
        gameStatus := GameStatus.PLAYING } : Game).snake = some (c :: cs) := hs
    obtain ⟨g2, hup, _, he⟩ := updateGame_motion delta keys rand true hs1 (Or.inl rfl)
    obtain ⟨hdir, hbuf, _⟩ := he ht
    have hdne : (!Vector2Equals (⟨if (GetInputDirection f.keys).x ≠ 0
            ∧ (GetInputDirection f.keys).y ≠ 0 then 0
          else (GetInputDirection f.keys).x, (GetInputDirection f.keys).y⟩ : Vector2)
        Vector2Zero) = true := by
      simp only [Bool.not_eq_true', ← Bool.not_eq_true, Vector2Equals_iff]
      exact hd
    refine ⟨g2, hup, ?_, ?_⟩
    · rw [hdir, activeDirection, bufferInput_of_zero _ h0]
      simp only [takeDirection, hdne, if_true]
    · rw [hbuf, bufferInput_of_zero _ h0]
      simp only [takeDirection, hdne, if_true]

/-- The instance of the amended claim C13 on `freshGame` and the frame in which the right key
is pressed. -/
theorem reset_branch_starts_game_witness :
    freshGame.gameStatus = GameStatus.RESET
      ∧ GetInputDirection (Frame.mk 0 rightKey true openingDraws true).keys ≠ Vector2Zero
      ∧ ∃ d : Vector2, d ≠ Vector2Zero
        ∧ mainStep (Frame.mk 0 rightKey true openingDraws true) freshGame
          = some { freshGame with inputBuffer := d, gameStatus := GameStatus.PLAYING } :=
  ⟨rfl, by decide,
    (reset_branch_starts_game (Frame.mk 0 rightKey true openingDraws true) freshGame rfl
      (by decide)).elim fun d h => ⟨d, h.1, h.2.2.1⟩⟩

/-- Claim C15 at a failing input: the snake `[(5,5)]` moves right onto the fruit at `(6,5)` and
the generator draws `(6,5)`. `PlaceFruit` runs before the snake has grown, finds the cell
free and reports success, and when the call returns the new fruit cell `(6,5)` is the cell
of the new head. -/
theorem new_fruit_under_new_head :
    (gameOf [⟨5, 5⟩] ⟨1, 0⟩ ⟨6, 5⟩).snake = some [⟨5, 5⟩]
      ∧ eatsFruit 0 noKeys (gameOf [⟨5, 5⟩] ⟨1, 0⟩ ⟨6, 5⟩) = true
      ∧ (PlaceFruit sameCellDraws (gameOf [⟨5, 5⟩] ⟨1, 0⟩ ⟨6, 5⟩)).map Prod.fst = some true
      ∧ UpdateGame 0 noKeys sameCellDraws true (gameOf [⟨5, 5⟩] ⟨1, 0⟩ ⟨6, 5⟩)
          = some fruitUnderHead
      ∧ fruitUnderHead.snake = some [⟨6, 5⟩, ⟨5, 5⟩]
      ∧ fruitUnderHead.fruitPos = ⟨6, 5⟩
      ∧ fruitUnderHead.fruitPos ∈ ([⟨6, 5⟩, ⟨5, 5⟩] : List Vector2) := by
  decide!

/-- Claim C17 at a failing input: a state of the main loop in which the direction of movement
is diagonal. After `ResetGame` the right key starts the game; `snakeDirection` is still zero,
so in the next frame `UpdateGame` filters nothing out of the sample `(1,1)` of the right and
down keys pressed together: it becomes the direction and the snake moves from `(5,5)` to
`(6,6)`. -/
theorem diagonal_direction_reachable :
    Reachable diagonalGame
      ∧ diagonalGame.snakeDirection = ⟨1, 1⟩
      ∧ ResetGame openingDraws true initialGame = some freshGame
      ∧ mainStep ⟨0, rightKey, true, openingDraws, true⟩ freshGame = some startedGame
      ∧ startedGame.snake = some [⟨5, 5⟩]
      ∧ mainStep ⟨0, rightDownKeys, true, openingDraws, true⟩ startedGame = some diagonalGame
      ∧ diagonalGame.snake = some [⟨6, 6⟩]
      ∧ diagonalGame.gameStatus = GameStatus.PLAYING := by
  have h0 : ResetGame openingDraws true initialGame = some freshGame := by decide!
  have h1 : mainStep ⟨0, rightKey, true, openingDraws, true⟩ freshGame = some startedGame := by
    decide!
  have h2 : mainStep ⟨0, rightDownKeys, true, openingDraws, true⟩ startedGame
      = some diagonalGame := by
    decide!
  exact ⟨reachable_diagonalGame, rfl, h0, h1, by decide, h2, by decide, rfl⟩

/-- Claim C18: in a state of the main loop with the non-zero direction `D`, whatever the input
samples were and are, a call of `UpdateGame` that returns never leaves the direction `-D`, and
when it changes the direction the new one has no component along an axis on which `D` has
one; and the call does return on a non-empty snake when the allocation succeeds. -/
theorem direction_never_reversed (g : Game) (hr : Reachable g)
    (hD : g.snakeDirection ≠ Vector2Zero) :
    (∀ (delta : ℚ) (keys : Keys) (rand : Nat → Nat × Nat) (allocOk : Bool) (g2 : Game),
        UpdateGame delta keys rand allocOk g = some g2 →
        g2.snakeDirection ≠ Vector2Negate g.snakeDirection
          ∧ (g2.snakeDirection ≠ g.snakeDirection →
            (g.snakeDirection.x ≠ 0 → g2.snakeDirection.x = 0)
              ∧ (g.snakeDirection.y ≠ 0 → g2.snakeDirection.y = 0)))
      ∧ ∀ (delta : ℚ) (keys : Keys) (rand : Nat → Nat × Nat) (c : Vector2)
          (cs : List Vector2), g.snake = some (c :: cs) →
          ∃ g2, UpdateGame delta keys rand true g = some g2 := by
  constructor
  · intro delta keys rand allocOk g2 hup
    obtain ⟨cells, hs, _⟩ := reachable_nodup hr
    obtain ⟨_, hbx, hby⟩ := reachable_buffer hr
    obtain ⟨_, hcases⟩ := updateGame_direction delta keys rand allocOk hs hbx hby hup
    have hnz : g.snakeDirection.x ≠ 0 ∨ g.snakeDirection.y ≠ 0 := by
      by_contra hcon
      rw [not_or, not_not, not_not] at hcon
      apply hD
      cases hv : g.snakeDirection with
      | mk x y =>
        rw [hv] at hcon
        simp only at hcon
        rw [hcon.1, hcon.2]
        rfl
    constructor
    · intro hneg
      have hnx : g2.snakeDirection.x = -g.snakeDirection.x := by rw [hneg]; rfl
      have hny : g2.snakeDirection.y = -g.snakeDirection.y := by rw [hneg]; rfl
      rcases hcases with heq | ⟨hx, hy⟩
      · rw [heq] at hnx hny
        omega
      · rcases hnz with h | h
        · have := hx h
          omega
        · have := hy h
          omega
    · intro hne
      rcases hcases with heq | hxy
      · exact absurd heq hne
      · exact hxy
  · intro delta keys rand c cs hs
    obtain ⟨g2, hup, _⟩ := updateGame_summary delta keys rand true hs (Or.inl rfl)
    exact ⟨g2, hup⟩

/-- The instance of claim C18 on `movedGame`, the state of the main loop after the first move
to the right, with the left key as the input of the next call. -/
theorem direction_never_reversed_witness :
    Reachable movedGame ∧ movedGame.snakeDirection ≠ Vector2Zero
      ∧ ∃ g2, UpdateGame 0 leftKey openingDraws true movedGame = some g2
        ∧ g2.snakeDirection ≠ Vector2Negate movedGame.snakeDirection :=
  have h := direction_never_reversed movedGame reachable_movedGame (by decide)
  (h.2 0 leftKey openingDraws ⟨6, 5⟩ [] (by decide)).elim fun g2 hup =>
    ⟨reachable_movedGame, by decide, g2, hup, (h.1 0 leftKey openingDraws true g2 hup).1⟩

/-- Claim C19: after `ResetGame` (from any prior state whose snake is a chain of nodes), with
every allocation succeeding, every sequence of iterations of the main loop and every sequence
of `UpdateGame` calls returns, and in the state it reaches, whatever its status, the length of
the snake is the score plus 1; the score is not negative, and after a sequence of `UpdateGame`
calls it is the number of calls that ate the fruit. -/
theorem snake_length_is_score_plus_one (rand : Nat → Nat × Nat) (prior : Game)
    (cells0 : List Vector2) (fs : List Frame) (hprior : prior.snake = some cells0)
    (hal : ∀ f ∈ fs, f.allocOk = true) :
    ∃ g0, ResetGame rand true prior = some g0
      ∧ (∃ g cells, runMain fs g0 = some g ∧ g.snake = some cells
          ∧ (cells.length : Int) = g.score + 1 ∧ 0 ≤ g.score)
      ∧ ∃ g cells, runUpdates fs g0 = some g ∧ g.snake = some cells
          ∧ (cells.length : Int) = g.score + 1 ∧ 0 ≤ g.score
          ∧ g.score = (countEats fs g0 : Int) := by
  obtain ⟨g0, hr, _, hsc, _, _, _, hsn⟩ := resetGame_summary rand true hprior
  simp only [if_true] at hsn
  have hlen : (([GetRandomTilePos (rand 0)] : List Vector2).length : Int) = g0.score + 1 := by
    simp [hsc]
  refine ⟨g0, hr, ?_, ?_⟩
  · obtain ⟨g, cells, hrun, hs, hne, hl⟩ := runMain_score fs hsn (by simp) hlen hal
    have hpos : 0 < cells.length := List.length_pos.mpr hne
    have hnn : 0 ≤ g.score := by omega
    exact ⟨g, cells, hrun, hs, hl, hnn⟩
  · obtain ⟨g, cells, hrun, hs, hne, hl, hcount⟩ :=
      runUpdates_score fs hsn (by simp) hlen hal
    have hpos : 0 < cells.length := List.length_pos.mpr hne
    have hnn : 0 ≤ g.score := by omega
    refine ⟨g, cells, hrun, hs, hl, hnn, ?_⟩
    rw [hcount, hsc]
    simp

/-- The instance of claim C19 on the start of `main` followed by the frame that starts the
game and by a frame that moves the snake. -/
theorem snake_length_is_score_plus_one_witness :
    initialGame.snake = some []
      ∧ (∀ f ∈ [Frame.mk 0 rightKey true openingDraws true,
            Frame.mk 0 noKeys false openingDraws true], f.allocOk = true)
      ∧ ∃ g0, ResetGame openingDraws true initialGame = some g0
        ∧ ∃ g cells,
          runMain [Frame.mk 0 rightKey true openingDraws true,
            Frame.mk 0 noKeys false openingDraws true] g0 = some g
          ∧ g.snake = some cells ∧ (cells.length : Int) = g.score + 1 ∧ 0 ≤ g.score :=
  have hal : ∀ f ∈ [Frame.mk 0 rightKey true openingDraws true,
      Frame.mk 0 noKeys false openingDraws true], f.allocOk = true := by
    intro f hf
    simp only [List.mem_cons, List.mem_singleton, List.not_mem_nil, or_false] at hf
    rcases hf with rfl | rfl <;> rfl
  (snake_length_is_score_plus_one openingDraws initialGame []
    [Frame.mk 0 rightKey true openingDraws true, Frame.mk 0 noKeys false openingDraws true]
    rfl hal).elim fun g0 h => ⟨rfl, hal, g0, h.1, h.2.1⟩

/-- Claim C20: in every state of the main loop whose status is not `LOST`, every cell of the
snake lies on the board; the cells being pairwise distinct, the snake has at most
`boardWidth * boardHeight = 400` cells and the score is at most 399. -/
theorem snake_stays_on_board (g : Game) (hr : Reachable g)
    (hnl : g.gameStatus ≠ GameStatus.LOST) :
    boardWidth * boardHeight = 400
      ∧ ∃ cells, g.snake = some cells
        ∧ (∀ c ∈ cells, 0 ≤ c.x ∧ c.x ≤ boardWidth - 1 ∧ 0 ≤ c.y ∧ c.y ≤ boardHeight - 1)
        ∧ cells.Nodup ∧ cells.length ≤ 400 ∧ g.score ≤ 399 := by
  obtain ⟨cells, hs, hin⟩ := reachable_board hr hnl
  obtain ⟨cells2, hs2, hnd⟩ := reachable_nodup hr
  obtain ⟨cells3, hs3, hsc⟩ := reachable_score hr
  rw [hs] at hs2 hs3
  obtain rfl := Option.some.inj hs2
  obtain rfl := Option.some.inj hs3
  have hlen := length_le_of_nodup_inBoard (hnd hnl) hin
  refine ⟨by decide, cells, hs, ?_, hnd hnl, hlen, ?_⟩
  · intro c hc
    have hb := hin c hc
    unfold inBoard at hb
    exact ⟨hb.1, hb.2.2.1, hb.2.1, hb.2.2.2⟩
  · rcases hsc with h | ⟨_, h⟩
    · omega
    · omega

/-- The instance of claim C20 on `movedGame`, the state of the main loop after the first move
to the right. -/
theorem snake_stays_on_board_witness :
    Reachable movedGame ∧ movedGame.gameStatus ≠ GameStatus.LOST
      ∧ ∃ cells, movedGame.snake = some cells
        ∧ (∀ c ∈ cells, 0 ≤ c.x ∧ c.x ≤ boardWidth - 1 ∧ 0 ≤ c.y ∧ c.y ≤ boardHeight - 1)
        ∧ cells.Nodup ∧ cells.length ≤ 400 ∧ movedGame.score ≤ 399 :=
  ⟨reachable_movedGame, by decide,
    (snake_stays_on_board movedGame reachable_movedGame (by decide)).2⟩

end Snake
